import Mathlib

/-!
# jparse: typed accessors over decoded JSON objects

A shallow embedding of `object.go`.  A Go `map[string]interface{}` is an
association list of entries with pairwise distinct keys, listed in the order
in which the runtime happens to iterate the map; a Go `(T, error)` result is
kept as the pair it is, next to the run-time faults (panics) of the Go
runtime.
-/

namespace Jparse

/-- A float64, kept as its IEEE-754 bit pattern; no accessor inspects it. -/
structure Float64 where
  bits : Nat
  deriving DecidableEq, Repr

/-- The dynamic values an `interface{}` of the document tree can hold:
`map[string]interface{}`, `[]interface{}`, `string`, `float64`, `int`,
`bool` and the nil interface. -/
inductive Value where
  | object (m : List (String × Value))
  | list (l : List Value)
  | str (s : String)
  | float (f : Float64)
  | int (i : Int)
  | bool (b : Bool)
  | null

/-- The struct `Obj`: a wrapper around one `map[string]interface{}`. -/
structure Obj where
  m : List (String × Value)

/-- The errors built by `fmt.Errorf`, one constructor per format string of
`object.go`, carrying the arguments of the format; `cause` is the operand of
a `%w` verb (`none` when that operand is the nil error). -/
inductive Err where
  /-- The message `jparse: %s not found`. -/
  | notFound (name : String)
  /-- The message `jparse: unable to cast %s as object`. -/
  | castAsObject (name : String)
  /-- The message `jparse: unable to get interface with name '%s': %w`. -/
  | getInterfaceWithName (arg : String) (cause : Option Err)
  /-- The message `jparse: unable to find interface with path '%v'`. -/
  | findInterfaceWithPath (args : List String)
  /-- The message `jparse: unable to cast '%v' to map[string]interface{}`. -/
  | castToMap (v : Value)
  /-- The message `jparse: unable to match string: %w`, around the error of the regexp package. -/
  | matchString (cause : String)
  /-- The message `jparse: no match for pattern`. -/
  | noMatch
  /-- The message `jparse: more than a single match for pattern`. -/
  | moreThanSingleMatch
  /-- The message `jparse: unable to cast %s to string`. -/
  | castToString (name : String)
  /-- The message `jparse: unable to find string with path '%v': %w`. -/
  | findStringWithPath (args : List String) (cause : Err)
  /-- The message `jparse: unable to cast %v to string`. -/
  | castPathToString (args : List String)
  /-- The message `jparse: unable to cast %s to float64`. -/
  | castToFloat64 (name : String)
  /-- The message `jparse: unable to cast %s to int`. -/
  | castToInt (name : String)
  /-- The message `jparse: unable to cast %s to list`. -/
  | castToList (name : String)
  /-- The message `jparse: unable to cast %v to list`. -/
  | castPathToList (args : List String)
  /-- The message `jparse: unable to cast list item to map[string]interface{}`. -/
  | castListItemToMap
  /-- The message `jparse: unable to cast '%s' to []interface{}`. -/
  | castToSlice (name : String)
  /-- The message `jparse: unable to cast '%s' item to string`. -/
  | castItemToString (name : String)
  /-- The message `jparse: unable to cast '%v' to []interface{}`. -/
  | castPathToSlice (args : List String)
  /-- The message `jparse: unable to cast '%v' item to string`. -/
  | castPathItemToString (args : List String)
  /-- The message `jparse: unable to match: %w`, around the error of the regexp package. -/
  | unableToMatch (cause : String)

/-- The run-time faults of the Go runtime that the accessors can raise. -/
inductive Fault where
  /-- A single-value type assertion `v.(T)` on a value of another dynamic type. -/
  | interfaceConversion (v : Value)
  /-- The slice expression `args[:len(args)-1]` with a negative bound. -/
  | sliceBoundsOutOfRange
  /-- A method reading `o.m` through a nil `*Obj`. -/
  | nilPointerDereference
  /-- An explicit `panic(err)`. -/
  | panicErr (e : Err)

/-- What a call of a Go function with result `(T, error)` does: it returns
the pair, or it panics. -/
inductive Outcome (α : Type) where
  | ret (val : α) (err : Option Err)
  | panic (f : Fault)

/-- The map index expression `v, ok := m[name]`: `some v` when `ok`. -/
def mapIndex (m : List (String × Value)) (name : String) : Option Value :=
  m.lookup name

/-- Method `ObjectWithName`. -/
def Obj.ObjectWithName (o : Obj) (name : String) : Outcome (Option Obj) :=
  match mapIndex o.m name with
  | none => .ret none (some (.notFound name))
  | some v =>
    match v with
    | .object m => .ret (some ⟨m⟩) none
    | _ => .ret none (some (.castAsObject name))

/-- Method `getInterfaceWithName`. -/
def Obj.getInterfaceWithName (o : Obj) (name : String) : Outcome Value :=
  match mapIndex o.m name with
  | none => .ret .null (some (.notFound name))
  | some v => .ret v none

/-- The loop `for _, arg := range args[:len(args)-1]` of `getInterfaceWithPath`,
over the pointer `obj`; `call ob arg` stands for `ob.GetObjectWithPath(arg)`
and is `none` when that call does not come back.  The loop ends with
`.inl obj` when it runs through, and with `.inr out` when the function is
left from inside it. -/
def getInterfaceWithPath.range (call : Obj → String → Option (Outcome (Option Obj))) :
    Option Obj → List String → Option (Option Obj ⊕ Outcome Value)
  | obj, [] => some (.inl obj)
  | none, _ :: _ => some (.inr (.panic .nilPointerDereference))
  | some ob, arg :: rest =>
    match call ob arg with
    | none => none
    | some (.panic f) => some (.inr (.panic f))
    | some (.ret _ (some err)) =>
      some (.inr (.ret .null (some (.getInterfaceWithName arg (some err)))))
    | some (.ret obj1 none) => getInterfaceWithPath.range call obj1 rest

mutual
/-- Method `getInterfaceWithPath`; `fuel` bounds the depth of the calls between
it and `GetObjectWithPath`, and the result is `none` when the bound is hit. -/
def Obj.getInterfaceWithPath : Nat → Obj → List String → Option (Outcome Value)
  | 0, _, _ => none
  | fuel + 1, o, args =>
    if args.length = 0 then some (.panic .sliceBoundsOutOfRange)
    else
      match getInterfaceWithPath.range (fun ob arg => Obj.GetObjectWithPath fuel ob [arg])
          (some o) args.dropLast with
      | none => none
      | some (.inr out) => some out
      | some (.inl none) => some (.panic .nilPointerDereference)
      | some (.inl (some obj)) =>
        match args.getLast? with
        | none => some (.panic .sliceBoundsOutOfRange)
        | some arg =>
          match mapIndex obj.m arg with
          | none => some (.ret .null (some (.getInterfaceWithName arg none)))
          | some v => some (.ret v none)
/-- Method `GetObjectWithPath`, with the same `fuel`. -/
def Obj.GetObjectWithPath : Nat → Obj → List String → Option (Outcome (Option Obj))
  | 0, _, _ => none
  | fuel + 1, o, args =>
    match Obj.getInterfaceWithPath fuel o args with
    | none => none
    | some (.panic f) => some (.panic f)
    | some (.ret _ (some _)) => some (.ret none (some (.findInterfaceWithPath args)))
    | some (.ret v none) =>
      match v with
      | .object m => some (.ret (some ⟨m⟩) none)
      | _ => some (.ret none (some (.castToMap v)))
end

/-- The standard function `sort.Strings`: the ascending rearrangement of `ks`,
strings being compared character by character. -/
def sortStrings (ks : List String) : List String :=
  ks.insertionSort (fun a b => a.toList ≤ b.toList)

/-- Method `Keys`: the loop appends every key of the map in iteration order,
then the slice is sorted. -/
def Obj.Keys (o : Obj) : List String :=
  sortStrings (o.m.foldl (fun ks kv => ks ++ [kv.1]) [])

/-- The part of package `regexp` the accessors use: `Compile pattern` is the
error message for a pattern that is not a regular expression, and otherwise
the test that the compiled expression matches a string. -/
structure Regexp where
  Compile : String → Except String (String → Bool)

/-- The standard function `regexp.MatchString`: compile the pattern, then match. -/
def Regexp.MatchString (re : Regexp) (pattern s : String) : Except String Bool :=
  match re.Compile pattern with
  | .error err => .error err
  | .ok r => .ok (r s)

/-- The loop of `singleKeyWithRegex` over the keys still to visit, with the
matches `m` so far; `.error err` when the function is left from inside it. -/
def singleKeyWithRegex.range (re : Regexp) (pattern : String) :
    List String → List String → Except String (List String)
  | [], m => .ok m
  | key :: rest, m =>
    match re.MatchString pattern key with
    | .error err => .error err
    | .ok ok => singleKeyWithRegex.range re pattern rest (if ok then m ++ [key] else m)

/-- Method `singleKeyWithRegex`. -/
def Obj.singleKeyWithRegex (re : Regexp) (o : Obj) (pattern : String) : Outcome String :=
  match singleKeyWithRegex.range re pattern o.Keys [] with
  | .error err => .ret "" (some (.matchString err))
  | .ok m =>
    if m.length = 0 then .ret "" (some .noMatch)
    else if m.length > 1 then .ret "" (some .moreThanSingleMatch)
    else
      match m with
      | [] => .panic .sliceBoundsOutOfRange
      | k :: _ => .ret k none

/-- Method `ObjectWithRegex`. -/
def Obj.ObjectWithRegex (re : Regexp) (o : Obj) (pattern : String) : Outcome (Option Obj) :=
  match o.singleKeyWithRegex re pattern with
  | .panic f => .panic f
  | .ret _ (some err) => .ret none (some err)
  | .ret name none => o.ObjectWithName name

/-- Method `StringWithName`.  The type assertion is the single-value form
`s := v.(string)`, so `ok` is still the result of the map index when it is
tested the second time. -/
def Obj.StringWithName (o : Obj) (name : String) : Outcome String :=
  match mapIndex o.m name with
  | none => .ret "" (some (.notFound name))
  | some v =>
    let ok := true
    match v with
    | .str s => if !ok then .ret "" (some (.castToString name)) else .ret s none
    | _ => .panic (.interfaceConversion v)

/-- Method `StringWithPath`. -/
def Obj.StringWithPath (fuel : Nat) (o : Obj) (args : List String) : Option (Outcome String) :=
  match o.getInterfaceWithPath fuel args with
  | none => none
  | some (.panic f) => some (.panic f)
  | some (.ret _ (some err)) => some (.ret "" (some (.findStringWithPath args err)))
  | some (.ret v none) =>
    match v with
    | .str s => some (.ret s none)
    | _ => some (.ret "" (some (.castPathToString args)))

/-- Method `FloatWithName`. -/
def Obj.FloatWithName (o : Obj) (name : String) : Outcome Float64 :=
  match mapIndex o.m name with
  | none => .ret ⟨0⟩ (some (.notFound name))
  | some v =>
    match v with
    | .float f => .ret f none
    | _ => .ret ⟨0⟩ (some (.castToFloat64 name))

/-- Method `IntWithName`. -/
def Obj.IntWithName (o : Obj) (name : String) : Outcome Int :=
  match mapIndex o.m name with
  | none => .ret 0 (some (.notFound name))
  | some v =>
    match v with
    | .int f => .ret f none
    | _ => .ret 0 (some (.castToInt name))

/-- The loop over the list items that `SliceOfObjectWithName` and
`SliceOfObjectWithPath` share, with the slice `objs` built so far;
`.error err` when the function is left from inside it. -/
def sliceOfObject.range : List Value → List Obj → Except Err (List Obj)
  | [], objs => .ok objs
  | i :: rest, objs =>
    match i with
    | .object m => sliceOfObject.range rest (objs ++ [⟨m⟩])
    | _ => .error .castListItemToMap

/-- Method `SliceOfObjectWithName`. -/
def Obj.SliceOfObjectWithName (o : Obj) (name : String) : Outcome (List Obj) :=
  match mapIndex o.m name with
  | none => .ret [] (some (.notFound name))
  | some v =>
    match v with
    | .list l =>
      match sliceOfObject.range l [] with
      | .error err => .ret [] (some err)
      | .ok objs => .ret objs none
    | _ => .ret [] (some (.castToList name))

/-- Method `SliceOfObjectWithRegex`. -/
def Obj.SliceOfObjectWithRegex (re : Regexp) (o : Obj) (pattern : String) :
    Outcome (List Obj) :=
  match o.singleKeyWithRegex re pattern with
  | .panic f => .panic f
  | .ret _ (some err) => .ret [] (some err)
  | .ret name none => o.SliceOfObjectWithName name

/-- Method `SliceOfObjectWithPath`. -/
def Obj.SliceOfObjectWithPath (fuel : Nat) (o : Obj) (args : List String) :
    Option (Outcome (List Obj)) :=
  match o.getInterfaceWithPath fuel args with
  | none => none
  | some (.panic f) => some (.panic f)
  | some (.ret _ (some _)) => some (.ret [] (some (.findInterfaceWithPath args)))
  | some (.ret v none) =>
    match v with
    | .list l =>
      match sliceOfObject.range l [] with
      | .error err => some (.ret [] (some err))
      | .ok objs => some (.ret objs none)
    | _ => some (.ret [] (some (.castPathToList args)))

/-- The loop over the list items that `SliceOfStringWithName` and
`SliceOfStringWithPath` share, with the slice `strs` built so far; `none`
when the function is left from inside it. -/
def sliceOfString.range : List Value → List String → Option (List String)
  | [], strs => some strs
  | i :: rest, strs =>
    match i with
    | .str str => sliceOfString.range rest (strs ++ [str])
    | _ => none

/-- Method `SliceOfStringWithName`. -/
def Obj.SliceOfStringWithName (o : Obj) (name : String) : Outcome (List String) :=
  match mapIndex o.m name with
  | none => .ret [] (some (.notFound name))
  | some v =>
    match v with
    | .list s =>
      match sliceOfString.range s [] with
      | none => .ret [] (some (.castItemToString name))
      | some strs => .ret strs none
    | _ => .ret [] (some (.castToSlice name))

/-- Method `SliceOfStringWithPath`. -/
def Obj.SliceOfStringWithPath (fuel : Nat) (o : Obj) (args : List String) :
    Option (Outcome (List String)) :=
  match o.getInterfaceWithPath fuel args with
  | none => none
  | some (.panic f) => some (.panic f)
  | some (.ret _ (some _)) => some (.ret [] (some (.findInterfaceWithPath args)))
  | some (.ret v none) =>
    match v with
    | .list s =>
      match sliceOfString.range s [] with
      | none => some (.ret [] (some (.castPathItemToString args)))
      | some strs => some (.ret strs none)
    | _ => some (.ret [] (some (.castPathToSlice args)))

/-- The loop of `KeysWithRegex` over the entries still to visit, with the
keys `ks` kept so far; `.error err` when the function is left from inside it. -/
def KeysWithRegex.range (re : Regexp) (pattern : String) :
    List (String × Value) → List String → Except String (List String)
  | [], ks => .ok ks
  | kv :: rest, ks =>
    match re.MatchString pattern kv.1 with
    | .error err => .error err
    | .ok ok => KeysWithRegex.range re pattern rest (if ok then ks ++ [kv.1] else ks)

/-- Method `KeysWithRegex`. -/
def Obj.KeysWithRegex (re : Regexp) (o : Obj) (pattern : String) : Outcome (List String) :=
  match KeysWithRegex.range re pattern o.m [] with
  | .error err => .ret [] (some (.unableToMatch err))
  | .ok ks => .ret (sortStrings ks) none

/-- The invariant of a Go map: no key occurs in two entries. -/
def Obj.WF (o : Obj) : Prop :=
  (o.m.map Prod.fst).Nodup

instance Obj.decidableWF (o : Obj) : Decidable o.WF :=
  inferInstanceAs (Decidable (o.m.map Prod.fst).Nodup)

/-- The document of the tests: `aaa` holds `bbb`, which holds `ccc`, which
holds the string `42` under `what`. -/
def testDoc : Obj :=
  ⟨[("aaa", .object [("bbb", .object [("ccc", .object [("what", .str "42")])])])]⟩

/-- An object with the keys `foo1`, `foo2` and `bar`. -/
def fooDoc : Obj :=
  ⟨[("foo1", .object [("x", .null)]), ("foo2", .list []), ("bar", .object [("y", .str "z")])]⟩

/-- A regexp engine for worked examples: the pattern `(` is not a regular
expression, and every other pattern is read as a literal, matching the
strings that contain it. -/
def literalRegexp : Regexp where
  Compile pattern :=
    if pattern = "(" then .error "missing closing )"
    else .ok (fun s => decide (pattern.toList <:+: s.toList))

/-- The chain `ObjectWithName(p1)`, then `ObjectWithName(p2)` on its result,
and so on through the path: `some r` when every step succeeds, `r` being the
object of the last step, and `none` as soon as one step fails. -/
def objectChain : Obj → List String → Option Obj
  | o, [] => some o
  | o, p :: ps =>
    match o.ObjectWithName p with
    | .ret (some o1) none => objectChain o1 ps
    | _ => none

/-- What the single-segment call `o.GetObjectWithPath(name)` returns. -/
def singleSegment (o : Obj) (name : String) : Outcome (Option Obj) :=
  match mapIndex o.m name with
  | none => .ret none (some (.findInterfaceWithPath [name]))
  | some v =>
    match v with
    | .object m => .ret (some ⟨m⟩) none
    | _ => .ret none (some (.castToMap v))

/-- Method `MustObjectWithPath`; a panic is the `.error` of the result. -/
def Obj.MustObjectWithPath (fuel : Nat) (o : Obj) (args : List String) :
    Option (Except Fault (Option Obj)) :=
  match o.GetObjectWithPath fuel args with
  | none => none
  | some (.panic f) => some (.error f)
  | some (.ret _ (some err)) => some (.error (.panicErr err))
  | some (.ret obj none) => some (.ok obj)

/-- Method `MustObjectWithName`. -/
def Obj.MustObjectWithName (o : Obj) (name : String) : Except Fault (Option Obj) :=
  match o.ObjectWithName name with
  | .panic f => .error f
  | .ret _ (some err) => .error (.panicErr err)
  | .ret obj none => .ok obj

/-- Method `MustObjectWithRegex`. -/
def Obj.MustObjectWithRegex (re : Regexp) (o : Obj) (pattern : String) :
    Except Fault (Option Obj) :=
  match o.ObjectWithRegex re pattern with
  | .panic f => .error f
  | .ret _ (some err) => .error (.panicErr err)
  | .ret obj none => .ok obj

/-- Method `MustStringWithPath`. -/
def Obj.MustStringWithPath (fuel : Nat) (o : Obj) (args : List String) :
    Option (Except Fault String) :=
  match o.StringWithPath fuel args with
  | none => none
  | some (.panic f) => some (.error f)
  | some (.ret _ (some err)) => some (.error (.panicErr err))
  | some (.ret s none) => some (.ok s)

/-- Method `MustStringWithName`. -/
def Obj.MustStringWithName (o : Obj) (name : String) : Except Fault String :=
  match o.StringWithName name with
  | .panic f => .error f
  | .ret _ (some err) => .error (.panicErr err)
  | .ret s none => .ok s

/-- Method `MustFloatWithName`. -/
def Obj.MustFloatWithName (o : Obj) (name : String) : Except Fault Float64 :=
  match o.FloatWithName name with
  | .panic f => .error f
  | .ret _ (some err) => .error (.panicErr err)
  | .ret f none => .ok f

/-- Method `MustSliceOfObjectWithPath`. -/
def Obj.MustSliceOfObjectWithPath (fuel : Nat) (o : Obj) (args : List String) :
    Option (Except Fault (List Obj)) :=
  match o.SliceOfObjectWithPath fuel args with
  | none => none
  | some (.panic f) => some (.error f)
  | some (.ret _ (some err)) => some (.error (.panicErr err))
  | some (.ret s none) => some (.ok s)

/-- Method `MustSliceOfObjectWithName`. -/
def Obj.MustSliceOfObjectWithName (o : Obj) (name : String) : Except Fault (List Obj) :=
  match o.SliceOfObjectWithName name with
  | .panic f => .error f
  | .ret _ (some err) => .error (.panicErr err)
  | .ret objs none => .ok objs

/-- Method `MustSliceOfStringWithPath`. -/
def Obj.MustSliceOfStringWithPath (fuel : Nat) (o : Obj) (args : List String) :
    Option (Except Fault (List String)) :=
  match o.SliceOfStringWithPath fuel args with
  | none => none
  | some (.panic f) => some (.error f)
  | some (.ret _ (some err)) => some (.error (.panicErr err))
  | some (.ret s none) => some (.ok s)

/-- The combinator the specification describes for the Must forms: the value
of a call that returns no error, and a fault that carries the error of a call
that returns one; a call that panics has no result to convert, its fault goes
on. -/
def mustOf {α : Type} : Outcome α → Except Fault α
  | .ret v none => .ok v
  | .ret _ (some err) => .error (.panicErr err)
  | .panic f => .error f

mutual
/-- The values of the JSON value model of the decoder: objects, lists,
strings, float64 numbers, booleans and null, and no native integer. -/
def Value.isJSON : Value → Bool
  | .object m => Value.isJSONEntries m
  | .list l => Value.isJSONList l
  | .str _ => true
  | .float _ => true
  | .int _ => false
  | .bool _ => true
  | .null => true
/-- Every value of the entries is of the JSON value model. -/
def Value.isJSONEntries : List (String × Value) → Bool
  | [] => true
  | (_, v) :: rest => Value.isJSON v && Value.isJSONEntries rest
/-- Every item of the list is of the JSON value model. -/
def Value.isJSONList : List Value → Bool
  | [] => true
  | v :: rest => Value.isJSON v && Value.isJSONList rest
end

/-- The number of calls `ob.GetObjectWithPath(arg)` that the loop of
`getInterfaceWithPath` makes, following `getInterfaceWithPath.range` branch
by branch. -/
def getInterfaceWithPath.rangeCalls (call : Obj → String → Option (Outcome (Option Obj))) :
    Option Obj → List String → Nat
  | _, [] => 0
  | none, _ :: _ => 0
  | some ob, arg :: rest =>
    match call ob arg with
    | none => 1
    | some (.panic _) => 1
    | some (.ret _ (some _)) => 1
    | some (.ret obj1 none) => 1 + getInterfaceWithPath.rangeCalls call obj1 rest

/-! ## Path lookups -/

theorem getInterfaceWithPath_single (n : Nat) (o : Obj) (name : String) :
    o.getInterfaceWithPath (n + 1) [name] =
      some (match mapIndex o.m name with
        | none => .ret .null (some (.getInterfaceWithName name none))
        | some v => .ret v none) := by
  simp only [Obj.getInterfaceWithPath, List.length_singleton, one_ne_zero, if_false,
    List.dropLast_single, getInterfaceWithPath.range, List.getLast?_singleton]
  cases mapIndex o.m name <;> rfl

theorem GetObjectWithPath_single (n : Nat) (o : Obj) (name : String) :
    o.GetObjectWithPath (n + 2) [name] = some (singleSegment o name) := by
  rw [Obj.GetObjectWithPath, getInterfaceWithPath_single, singleSegment]
  cases h : mapIndex o.m name with
  | none => rfl
  | some v => cases v <;> rfl

theorem ObjectWithName_cases (o : Obj) (name : String) :
    (∃ m, mapIndex o.m name = some (.object m) ∧
        o.ObjectWithName name = .ret (some ⟨m⟩) none ∧
        singleSegment o name = .ret (some ⟨m⟩) none) ∨
    ((∃ e, o.ObjectWithName name = .ret none (some e)) ∧
        ∃ e, singleSegment o name = .ret none (some e)) := by
  unfold Obj.ObjectWithName singleSegment
  cases h : mapIndex o.m name with
  | none => exact Or.inr ⟨⟨_, rfl⟩, ⟨_, rfl⟩⟩
  | some v =>
    cases v with
    | object m => exact Or.inl ⟨m, rfl, rfl, rfl⟩
    | _ => exact Or.inr ⟨⟨_, rfl⟩, ⟨_, rfl⟩⟩

theorem objectChain_append (o : Obj) (xs ys : List String) :
    objectChain o (xs ++ ys) = (objectChain o xs).bind (fun r => objectChain r ys) := by
  induction xs generalizing o with
  | nil => rfl
  | cons x xs ih =>
    simp only [List.cons_append, objectChain]
    rcases ObjectWithName_cases o x with ⟨m, -, h, -⟩ | ⟨⟨e, h⟩, -⟩
    · simp only [h]; exact ih _
    · simp only [h]; rfl

theorem range_eq_chain (o : Obj) (args : List String) :
    (∀ r, objectChain o args = some r →
        getInterfaceWithPath.range (fun ob arg => some (singleSegment ob arg))
          (some o) args = some (.inl (some r))) ∧
    (objectChain o args = none →
        ∃ e, getInterfaceWithPath.range (fun ob arg => some (singleSegment ob arg))
          (some o) args = some (.inr (.ret .null (some e)))) := by
  induction args generalizing o with
  | nil =>
    refine ⟨fun r h => ?_, fun h => ?_⟩
    · simp only [objectChain, Option.some.injEq] at h
      subst h; rfl
    · simp [objectChain] at h
  | cons a as ih =>
    simp only [objectChain, getInterfaceWithPath.range]
    rcases ObjectWithName_cases o a with ⟨m, -, h1, h2⟩ | ⟨⟨e1, h1⟩, e2, h2⟩
    · simp only [h1, h2]
      exact ih ⟨m⟩
    · simp only [h1, h2]
      exact ⟨fun r h => by simp at h, fun _ => ⟨_, rfl⟩⟩

/-- One unfolding of `getInterfaceWithPath` on a non-empty path: the calls of
the loop are single-segment calls, which need two more levels. -/
theorem getInterfaceWithPath_concat (n : Nat) (o : Obj) (pre : List String) (last : String) :
    o.getInterfaceWithPath (n + 3) (pre ++ [last]) =
      match getInterfaceWithPath.range (fun ob arg => some (singleSegment ob arg))
          (some o) pre with
      | none => none
      | some (.inr out) => some out
      | some (.inl none) => some (.panic .nilPointerDereference)
      | some (.inl (some obj)) =>
        match mapIndex obj.m last with
        | none => some (.ret .null (some (.getInterfaceWithName last none)))
        | some v => some (.ret v none) := by
  have hlen : ¬ (pre ++ [last]).length = 0 := by simp
  have hcall : (fun ob arg => Obj.GetObjectWithPath (n + 2) ob [arg]) =
      fun ob arg => some (singleSegment ob arg) := by
    funext ob arg
    exact GetObjectWithPath_single n ob arg
  rw [Obj.getInterfaceWithPath, if_neg hlen, List.dropLast_concat, List.getLast?_concat, hcall]

/-- What `GetObjectWithPath` returns on a non-empty path, from the chain over
the segments before the last and the map index of the last. -/
theorem GetObjectWithPath_eq (n : Nat) (o : Obj) (pre : List String) (last : String) :
    (∀ r, objectChain o (pre ++ [last]) = some r →
        o.GetObjectWithPath (n + 4) (pre ++ [last]) = some (.ret (some r) none)) ∧
    (objectChain o (pre ++ [last]) = none →
        ∃ e, o.GetObjectWithPath (n + 4) (pre ++ [last]) = some (.ret none (some e))) := by
  rw [objectChain_append, Obj.GetObjectWithPath, getInterfaceWithPath_concat]
  obtain ⟨hs, hn⟩ := range_eq_chain o pre
  cases hc : objectChain o pre with
  | none =>
    obtain ⟨e, he⟩ := hn hc
    simp only [he]
    exact ⟨fun r h => by simp at h, fun _ => ⟨_, rfl⟩⟩
  | some r1 =>
    simp only [hs r1 hc, Option.some_bind, objectChain]
    rcases ObjectWithName_cases r1 last with ⟨m, h0, h1, -⟩ | ⟨⟨e1, h1⟩, e2, h2⟩
    · simp only [h0, h1]
      exact ⟨fun r h => by simp only [Option.some.injEq] at h; subst h; rfl,
        fun h => by simp at h⟩
    · simp only [h1]
      refine ⟨fun r h => by simp at h, fun _ => ?_⟩
      unfold singleSegment at h2
      cases hm : mapIndex r1.m last with
      | none => exact ⟨_, rfl⟩
      | some v =>
        rw [hm] at h2
        cases v with
        | object m => simp at h2
        | _ => exact ⟨_, rfl⟩

/-- C1: on a non-empty path `GetObjectWithPath` succeeds exactly when the chain
of `ObjectWithName` calls over the segments succeeds at every step, and then
returns the object of the chain; when the chain fails, `GetObjectWithPath`
returns an error, also on every longer path that starts with the same
segments; on the document of the tests the path `aaa`, `bbb`, `ccc` gives the
object whose `StringWithName("what")` is `42`. -/
theorem GetObjectWithPath_iff_chain (fuel : Nat) (o : Obj) (path : List String)
    (hpath : path ≠ []) :
    (match objectChain o path with
      | some r => o.GetObjectWithPath (fuel + 4) path = some (.ret (some r) none)
      | none => ∃ e, o.GetObjectWithPath (fuel + 4) path = some (.ret none (some e))) ∧
    (objectChain o path = none → ∀ later : List String,
      ∃ e, o.GetObjectWithPath (fuel + 4) (path ++ later) = some (.ret none (some e))) ∧
    ∃ r, testDoc.GetObjectWithPath (fuel + 4) ["aaa", "bbb", "ccc"] = some (.ret (some r) none) ∧
      r.StringWithName "what" = .ret "42" none := by
  have key : ∀ p : List String, p ≠ [] →
      (∀ r, objectChain o p = some r →
        o.GetObjectWithPath (fuel + 4) p = some (.ret (some r) none)) ∧
      (objectChain o p = none →
        ∃ e, o.GetObjectWithPath (fuel + 4) p = some (.ret none (some e))) := by
    intro p hp
    have h := GetObjectWithPath_eq fuel o p.dropLast (p.getLast hp)
    rwa [List.dropLast_append_getLast hp] at h
  refine ⟨?_, ?_, ?_⟩
  · cases hc : objectChain o path with
    | none => exact (key path hpath).2 hc
    | some r => exact (key path hpath).1 r hc
  · intro hc later
    refine (key (path ++ later) (by simp [hpath])).2 ?_
    rw [objectChain_append, hc]
    rfl
  · exact ⟨⟨[("what", .str "42")]⟩,
      (GetObjectWithPath_eq fuel testDoc ["aaa", "bbb"] "ccc").1 _ rfl, rfl⟩

theorem GetObjectWithPath_iff_chain_witness :
    (["aaa", "bbb", "zzz"] : List String) ≠ [] ∧
    (∃ e, testDoc.GetObjectWithPath 4 ["aaa", "bbb", "zzz"] = some (.ret none (some e))) ∧
    ∀ later : List String,
      ∃ e, testDoc.GetObjectWithPath 4 (["aaa", "bbb", "zzz"] ++ later)
        = some (.ret none (some e)) :=
  ⟨by decide,
    (GetObjectWithPath_iff_chain 0 testDoc ["aaa", "bbb", "zzz"] (by decide)).1,
    (GetObjectWithPath_iff_chain 0 testDoc ["aaa", "bbb", "zzz"] (by decide)).2.1 rfl⟩

/-- C2: the single-segment call `GetObjectWithPath(name)` and
`ObjectWithName(name)` succeed on the same inputs, namely when the value
under `name` is an object, and then both return that object; otherwise both
return an error. -/
theorem GetObjectWithPath_single_iff_ObjectWithName (fuel : Nat) (o : Obj) (name : String) :
    (∃ m, mapIndex o.m name = some (.object m) ∧
        o.GetObjectWithPath (fuel + 2) [name] = some (.ret (some ⟨m⟩) none) ∧
        o.ObjectWithName name = .ret (some ⟨m⟩) none) ∨
    ((∀ m, mapIndex o.m name ≠ some (.object m)) ∧
        (∃ e, o.GetObjectWithPath (fuel + 2) [name] = some (.ret none (some e))) ∧
        ∃ e, o.ObjectWithName name = .ret none (some e)) := by
  rw [GetObjectWithPath_single]
  unfold singleSegment Obj.ObjectWithName
  cases h : mapIndex o.m name with
  | none => exact Or.inr ⟨fun m hm => by simp at hm, ⟨_, rfl⟩, ⟨_, rfl⟩⟩
  | some v =>
    cases v with
    | object m => exact Or.inl ⟨m, rfl, rfl, rfl⟩
    | _ => exact Or.inr ⟨fun m hm => by simp at hm, ⟨_, rfl⟩, ⟨_, rfl⟩⟩

/-- C3: on the object that holds a number under `what` inside `aaa`, the call
`ObjectWithName("aaa")` succeeds and `StringWithName("what")` on its result
panics in the type assertion, while `StringWithPath("aaa", "what")` returns
the cast error. -/
theorem StringWithName_panics_where_StringWithPath_fails :
    (Obj.mk [("aaa", .object [("what", .float ⟨42⟩)])]).ObjectWithName "aaa"
      = .ret (some ⟨[("what", .float ⟨42⟩)]⟩) none ∧
    (Obj.mk [("what", .float ⟨42⟩)]).StringWithName "what"
      = .panic (.interfaceConversion (.float ⟨42⟩)) ∧
    (Obj.mk [("aaa", .object [("what", .float ⟨42⟩)])]).StringWithPath 3 ["aaa", "what"]
      = some (.ret "" (some (.castPathToString ["aaa", "what"]))) :=
  ⟨rfl, rfl, rfl⟩

/-! ## Key enumeration -/

theorem foldl_append_keys (m : List (String × Value)) (acc : List String) :
    m.foldl (fun ks kv => ks ++ [kv.1]) acc = acc ++ m.map Prod.fst := by
  induction m generalizing acc with
  | nil => simp
  | cons kv rest ih => simp [ih]

theorem Keys_eq (o : Obj) : o.Keys = sortStrings (o.m.map Prod.fst) := by
  simp [Obj.Keys, foldl_append_keys]

theorem strLe_total : IsTotal String (fun a b => a.toList ≤ b.toList) :=
  ⟨fun a b => le_total a.toList b.toList⟩

theorem strLe_trans : IsTrans String (fun a b => a.toList ≤ b.toList) :=
  ⟨fun _ _ _ h1 h2 => le_trans h1 h2⟩

theorem strLe_antisymm : IsAntisymm String (fun a b => a.toList ≤ b.toList) :=
  ⟨fun _ _ h1 h2 => String.toList_inj.mp (le_antisymm h1 h2)⟩

theorem sortStrings_perm (ks : List String) : (sortStrings ks).Perm ks :=
  List.perm_insertionSort _ ks

theorem sortStrings_sorted (ks : List String) :
    (sortStrings ks).Sorted (fun a b => a.toList ≤ b.toList) :=
  haveI := strLe_total
  haveI := strLe_trans
  List.sorted_insertionSort _ ks

/-- The result of `sort.Strings` is the only ascending rearrangement, whatever
the sorting procedure. -/
theorem sortStrings_unique (ks l : List String) (hperm : l.Perm ks)
    (hsorted : l.Sorted (fun a b => a.toList ≤ b.toList)) : l = sortStrings ks :=
  haveI := strLe_antisymm
  List.eq_of_perm_of_sorted (hperm.trans (sortStrings_perm ks).symm) hsorted
    (sortStrings_sorted ks)

theorem sortStrings_congr {ks ks1 : List String} (h : ks.Perm ks1) :
    sortStrings ks = sortStrings ks1 :=
  sortStrings_unique ks1 _ ((sortStrings_perm ks).trans h) (sortStrings_sorted ks)

theorem sortStrings_filter (p : String → Bool) (ks : List String) :
    sortStrings (ks.filter p) = (sortStrings ks).filter p :=
  (sortStrings_unique _ _ ((sortStrings_perm ks).filter p)
    ((sortStrings_sorted ks).filter p)).symm

theorem mapIndex_isSome (m : List (String × Value)) (k : String) :
    (mapIndex m k).isSome ↔ k ∈ m.map Prod.fst := by
  unfold mapIndex
  induction m with
  | nil => simp
  | cons kv rest ih =>
    obtain ⟨k1, v1⟩ := kv
    by_cases h : k = k1
    · subst h; simp [List.lookup]
    · have hb : (k == k1) = false := by simpa using h
      simp [List.lookup, hb, ih, h]

theorem mem_Keys (o : Obj) (k : String) : k ∈ o.Keys ↔ (mapIndex o.m k).isSome := by
  rw [Keys_eq, (sortStrings_perm _).mem_iff, mapIndex_isSome]

theorem Keys_nodup (o : Obj) (hwf : o.WF) : o.Keys.Nodup := by
  rw [Keys_eq, (sortStrings_perm _).nodup_iff]
  exact hwf

/-- C6: `Keys` returns exactly the keys of the object, each of them once, in
strictly ascending order of their characters, and the result is the same for
every order in which the entries of the map are visited. -/
theorem Keys_exact_sorted (o : Obj) (hwf : o.WF) :
    (∀ k, k ∈ o.Keys ↔ (mapIndex o.m k).isSome) ∧
    (∀ k, (mapIndex o.m k).isSome → o.Keys.count k = 1) ∧
    o.Keys.Pairwise (fun a b => a.toList < b.toList) ∧
    ∀ o1 : Obj, o1.m.Perm o.m → o1.Keys = o.Keys := by
  refine ⟨mem_Keys o, fun k hk => ?_, ?_, fun o1 hperm => ?_⟩
  · exact List.count_eq_one_of_mem (Keys_nodup o hwf) ((mem_Keys o k).mpr hk)
  · have hs : o.Keys.Pairwise (fun a b => a.toList ≤ b.toList) := by
      rw [Keys_eq]; exact sortStrings_sorted _
    have hn : o.Keys.Pairwise (fun a b => a ≠ b) := Keys_nodup o hwf
    refine (hs.and hn).imp ?_
    intro a b hab
    exact lt_of_le_of_ne hab.1 (fun h => hab.2 (String.toList_inj.mp h))
  · rw [Keys_eq, Keys_eq]
    exact sortStrings_congr (hperm.map _)

theorem Keys_exact_sorted_witness :
    (Obj.mk [("b", .null), ("c", .str "x"), ("a", .list [])]).WF ∧
    (Obj.mk [("b", .null), ("c", .str "x"), ("a", .list [])]).Keys = ["a", "b", "c"] ∧
    (Obj.mk [("b", .null), ("c", .str "x"), ("a", .list [])]).Keys.count "c" = 1 ∧
    (Obj.mk [("a", .list []), ("b", .null), ("c", .str "x")]).Keys
      = (Obj.mk [("b", .null), ("c", .str "x"), ("a", .list [])]).Keys :=
  ⟨by decide, by decide,
    (Keys_exact_sorted ⟨[("b", .null), ("c", .str "x"), ("a", .list [])]⟩ (by decide)).2.1
      "c" (by decide),
    (Keys_exact_sorted ⟨[("b", .null), ("c", .str "x"), ("a", .list [])]⟩ (by decide)).2.2.2
      ⟨[("a", .list []), ("b", .null), ("c", .str "x")]⟩
      (by
        show List.Perm [("a", Value.list []), ("b", .null), ("c", .str "x")]
          [("b", .null), ("c", .str "x"), ("a", .list [])]
        exact ((List.Perm.swap _ _ _).trans ((List.Perm.swap _ _ _).cons _)))⟩

/-! ## Regex-keyed lookups -/

theorem MatchString_of_ok {re : Regexp} {pattern : String} {r : String → Bool}
    (hre : re.Compile pattern = .ok r) (s : String) :
    re.MatchString pattern s = .ok (r s) := by
  simp [Regexp.MatchString, hre]

theorem MatchString_of_error {re : Regexp} {pattern msg : String}
    (hre : re.Compile pattern = .error msg) (s : String) :
    re.MatchString pattern s = .error msg := by
  simp [Regexp.MatchString, hre]

theorem singleKey_range_of_ok {re : Regexp} {pattern : String} {r : String → Bool}
    (hre : re.Compile pattern = .ok r) (keys m : List String) :
    singleKeyWithRegex.range re pattern keys m = .ok (m ++ keys.filter r) := by
  induction keys generalizing m with
  | nil => simp [singleKeyWithRegex.range]
  | cons key rest ih =>
    simp only [singleKeyWithRegex.range, MatchString_of_ok hre, ih]
    cases hk : r key <;> simp [List.filter, hk]

theorem singleKey_range_of_error {re : Regexp} {pattern msg : String}
    (hre : re.Compile pattern = .error msg) (keys m : List String) (hkeys : keys ≠ []) :
    singleKeyWithRegex.range re pattern keys m = .error msg := by
  cases keys with
  | nil => exact absurd rfl hkeys
  | cons key rest => simp only [singleKeyWithRegex.range, MatchString_of_error hre]

theorem Keys_range_of_ok {re : Regexp} {pattern : String} {r : String → Bool}
    (hre : re.Compile pattern = .ok r) (entries : List (String × Value)) (ks : List String) :
    KeysWithRegex.range re pattern entries ks
      = .ok (ks ++ (entries.map Prod.fst).filter r) := by
  induction entries generalizing ks with
  | nil => simp [KeysWithRegex.range]
  | cons kv rest ih =>
    simp only [KeysWithRegex.range, MatchString_of_ok hre, ih, List.map_cons]
    cases hk : r kv.1 <;> simp [List.filter, hk]

theorem Keys_range_of_error {re : Regexp} {pattern msg : String}
    (hre : re.Compile pattern = .error msg) (entries : List (String × Value))
    (ks : List String) (hne : entries ≠ []) :
    KeysWithRegex.range re pattern entries ks = .error msg := by
  cases entries with
  | nil => exact absurd rfl hne
  | cons kv rest => simp only [KeysWithRegex.range, MatchString_of_error hre]

theorem Keys_ne_nil (o : Obj) (hne : o.m ≠ []) : o.Keys ≠ [] := by
  intro h
  have hlen := (sortStrings_perm (o.m.map Prod.fst)).length_eq
  rw [← Keys_eq, h] at hlen
  cases hm : o.m with
  | nil => exact hne hm
  | cons kv rest => rw [hm] at hlen; simp at hlen

/-- What `singleKeyWithRegex` returns for a pattern that compiles, from the
keys that match. -/
theorem singleKeyWithRegex_of_ok {re : Regexp} {pattern : String} {r : String → Bool}
    (hre : re.Compile pattern = .ok r) (o : Obj) :
    o.singleKeyWithRegex re pattern =
      match o.Keys.filter r with
      | [] => .ret "" (some .noMatch)
      | [k] => .ret k none
      | _ :: _ :: _ => .ret "" (some .moreThanSingleMatch) := by
  simp only [Obj.singleKeyWithRegex, singleKey_range_of_ok hre, List.nil_append]
  rcases o.Keys.filter r with _ | ⟨a, _ | ⟨b, t⟩⟩ <;> simp

theorem eq_singleton_of_nodup {l : List String} {k : String} (hn : l.Nodup) (hk : k ∈ l)
    (hall : ∀ x ∈ l, x = k) : l = [k] := by
  rcases l with _ | ⟨a, _ | ⟨b, t⟩⟩
  · simp at hk
  · simp [hall a (by simp)]
  · have ha := hall a (by simp)
    have hb := hall b (by simp)
    subst ha
    subst hb
    simp at hn

/-- C4: for a pattern that compiles, `ObjectWithRegex` and
`SliceOfObjectWithRegex` return what `ObjectWithName` and
`SliceOfObjectWithName` return on the key `k` when `k` is the one key of the
object that matches; they return the no-match error when no key matches and
the error of more than a single match when two different keys match. -/
theorem WithRegex_exactly_one_match (re : Regexp) (o : Obj) (pattern : String)
    (r : String → Bool) (hwf : o.WF) (hre : re.Compile pattern = .ok r) :
    (∀ k, (mapIndex o.m k).isSome → r k = true →
      (∀ k1, (mapIndex o.m k1).isSome → r k1 = true → k1 = k) →
        o.ObjectWithRegex re pattern = o.ObjectWithName k ∧
        o.SliceOfObjectWithRegex re pattern = o.SliceOfObjectWithName k) ∧
    ((∀ k, (mapIndex o.m k).isSome → r k = false) →
        o.ObjectWithRegex re pattern = .ret none (some .noMatch) ∧
        o.SliceOfObjectWithRegex re pattern = .ret [] (some .noMatch)) ∧
    (∀ k1 k2, k1 ≠ k2 → (mapIndex o.m k1).isSome → (mapIndex o.m k2).isSome →
      r k1 = true → r k2 = true →
        o.ObjectWithRegex re pattern = .ret none (some .moreThanSingleMatch) ∧
        o.SliceOfObjectWithRegex re pattern = .ret [] (some .moreThanSingleMatch)) := by
  have hsingle := singleKeyWithRegex_of_ok hre o
  have hmem : ∀ k, k ∈ o.Keys.filter r ↔ (mapIndex o.m k).isSome ∧ r k = true := by
    intro k
    rw [List.mem_filter, mem_Keys]
  refine ⟨fun k hk hrk huniq => ?_, fun hnone => ?_, fun k1 k2 hne h1 h2 hr1 hr2 => ?_⟩
  · have hl : o.Keys.filter r = [k] :=
      eq_singleton_of_nodup ((Keys_nodup o hwf).filter _) ((hmem k).mpr ⟨hk, hrk⟩)
        (fun x hx => huniq x ((hmem x).mp hx).1 ((hmem x).mp hx).2)
    rw [hl] at hsingle
    simp only [Obj.ObjectWithRegex, Obj.SliceOfObjectWithRegex, hsingle, and_self]
  · have hl : o.Keys.filter r = [] := by
      rw [List.eq_nil_iff_forall_not_mem]
      intro x hx
      have := hnone x ((hmem x).mp hx).1
      rw [((hmem x).mp hx).2] at this
      exact Bool.noConfusion this
    rw [hl] at hsingle
    simp only [Obj.ObjectWithRegex, Obj.SliceOfObjectWithRegex, hsingle, and_self]
  · have hm1 := (hmem k1).mpr ⟨h1, hr1⟩
    have hm2 := (hmem k2).mpr ⟨h2, hr2⟩
    rcases hl : o.Keys.filter r with _ | ⟨a, _ | ⟨b, t⟩⟩
    · rw [hl] at hm1; simp at hm1
    · rw [hl] at hm1 hm2
      simp only [List.mem_singleton] at hm1 hm2
      exact absurd (hm1.trans hm2.symm) hne
    · rw [hl] at hsingle
      simp only [Obj.ObjectWithRegex, Obj.SliceOfObjectWithRegex, hsingle, and_self]

theorem WithRegex_exactly_one_match_witness :
    fooDoc.WF ∧
    literalRegexp.Compile "foo" = .ok (fun s => decide ("foo".toList <:+: s.toList)) ∧
    (fooDoc.ObjectWithRegex literalRegexp "foo" = .ret none (some .moreThanSingleMatch) ∧
      fooDoc.SliceOfObjectWithRegex literalRegexp "foo"
        = .ret [] (some .moreThanSingleMatch)) ∧
    (fooDoc.ObjectWithRegex literalRegexp "bar" = fooDoc.ObjectWithName "bar" ∧
      fooDoc.SliceOfObjectWithRegex literalRegexp "bar" = fooDoc.SliceOfObjectWithName "bar") :=
  ⟨by decide, rfl,
    (WithRegex_exactly_one_match literalRegexp fooDoc "foo" _ (by decide) rfl).2.2
      "foo1" "foo2" (by decide) rfl rfl rfl rfl,
    (WithRegex_exactly_one_match literalRegexp fooDoc "bar"
      (fun s => decide ("bar".toList <:+: s.toList)) (by decide) rfl).1 "bar" rfl rfl
      (fun k1 h1 h2 => by
        have hk := (mapIndex_isSome fooDoc.m k1).mp h1
        simp only [fooDoc, List.map_cons, List.map_nil, List.mem_cons, List.mem_singleton,
          List.not_mem_nil, or_false] at hk
        rcases hk with rfl | rfl | rfl
        · exact absurd h2 (by decide)
        · exact absurd h2 (by decide)
        · rfl)⟩

/-- C5, as the code has it: on an object with at least one key a pattern that
does not compile makes `ObjectWithRegex`, `SliceOfObjectWithRegex` and
`KeysWithRegex` return the pattern error, which wraps the error of the regexp
package; on the object with no keys the pattern is never compiled, the first
two return the no-match error and `KeysWithRegex` returns an empty result and
no error. -/
theorem WithRegex_invalid_pattern (re : Regexp) (o : Obj) (pattern msg : String)
    (hre : re.Compile pattern = .error msg) :
    (o.m ≠ [] →
      o.ObjectWithRegex re pattern = .ret none (some (.matchString msg)) ∧
      o.SliceOfObjectWithRegex re pattern = .ret [] (some (.matchString msg)) ∧
      o.KeysWithRegex re pattern = .ret [] (some (.unableToMatch msg))) ∧
    (o.m = [] →
      o.ObjectWithRegex re pattern = .ret none (some .noMatch) ∧
      o.SliceOfObjectWithRegex re pattern = .ret [] (some .noMatch) ∧
      o.KeysWithRegex re pattern = .ret [] none) := by
  refine ⟨fun hne => ?_, fun hnil => ?_⟩
  · have hs : o.singleKeyWithRegex re pattern = .ret "" (some (.matchString msg)) := by
      simp only [Obj.singleKeyWithRegex,
        singleKey_range_of_error hre o.Keys [] (Keys_ne_nil o hne)]
    simp only [Obj.ObjectWithRegex, Obj.SliceOfObjectWithRegex, hs, Obj.KeysWithRegex,
      Keys_range_of_error hre o.m [] hne, and_self]
  · obtain ⟨m⟩ := o
    simp only at hnil
    subst hnil
    exact ⟨rfl, rfl, rfl⟩

theorem WithRegex_invalid_pattern_witness :
    literalRegexp.Compile "(" = .error "missing closing )" ∧
    fooDoc.m ≠ [] ∧
    fooDoc.ObjectWithRegex literalRegexp "(" = .ret none (some (.matchString "missing closing )")) ∧
    fooDoc.SliceOfObjectWithRegex literalRegexp "("
      = .ret [] (some (.matchString "missing closing )")) ∧
    fooDoc.KeysWithRegex literalRegexp "(" = .ret [] (some (.unableToMatch "missing closing )")) :=
  ⟨rfl, by simp [fooDoc],
    (WithRegex_invalid_pattern literalRegexp fooDoc "(" "missing closing )" rfl).1
      (by simp [fooDoc])⟩

/-- C5 fails on the object with no keys: with the pattern `(`, which does not
compile, `ObjectWithRegex` and `SliceOfObjectWithRegex` return the no-match
error and `KeysWithRegex` returns an empty result and no error. -/
theorem WithRegex_invalid_pattern_empty_object :
    literalRegexp.Compile "(" = .error "missing closing )" ∧
    (Obj.mk []).ObjectWithRegex literalRegexp "(" = .ret none (some .noMatch) ∧
    (Obj.mk []).SliceOfObjectWithRegex literalRegexp "(" = .ret [] (some .noMatch) ∧
    (Obj.mk []).KeysWithRegex literalRegexp "(" = .ret [] none :=
  ⟨rfl, rfl, rfl, rfl⟩

/-- C7: for a pattern that compiles, `KeysWithRegex` returns no error and the
keys of `Keys` that match, in the order of `Keys`, whatever the order in
which the entries of the map are visited. -/
theorem KeysWithRegex_eq_filter_Keys (re : Regexp) (o o1 : Obj) (pattern : String)
    (r : String → Bool) (hre : re.Compile pattern = .ok r) (hperm : o1.m.Perm o.m) :
    o1.KeysWithRegex re pattern = .ret (o.Keys.filter r) none := by
  simp only [Obj.KeysWithRegex, Keys_range_of_ok hre, List.nil_append]
  rw [sortStrings_filter, Keys_eq, sortStrings_congr (hperm.map Prod.fst)]

theorem KeysWithRegex_eq_filter_Keys_witness :
    literalRegexp.Compile "foo" = .ok (fun s => decide ("foo".toList <:+: s.toList)) ∧
    fooDoc.m.Perm fooDoc.m ∧
    fooDoc.Keys = ["bar", "foo1", "foo2"] ∧
    fooDoc.KeysWithRegex literalRegexp "foo" = .ret ["foo1", "foo2"] none :=
  ⟨rfl, List.Perm.refl _, by decide,
    KeysWithRegex_eq_filter_Keys literalRegexp fooDoc fooDoc "foo" _ rfl (List.Perm.refl _)⟩

/-! ## Single-key lookups -/

theorem sliceOfObject_range_map (objs1 acc : List Obj) :
    sliceOfObject.range (objs1.map (fun ob => Value.object ob.m)) acc = .ok (acc ++ objs1) := by
  induction objs1 generalizing acc with
  | nil => simp [sliceOfObject.range]
  | cons ob rest ih => simp [sliceOfObject.range, ih]

theorem sliceOfObject_range_error (l : List Value) (acc : List Obj)
    (h : ∃ v ∈ l, ∀ m, v ≠ .object m) :
    sliceOfObject.range l acc = .error .castListItemToMap := by
  induction l generalizing acc with
  | nil => simp at h
  | cons i rest ih =>
    cases i with
    | object m =>
      simp only [sliceOfObject.range]
      apply ih
      obtain ⟨v, hv, hne⟩ := h
      rcases List.mem_cons.mp hv with rfl | hv
      · exact absurd rfl (hne m)
      · exact ⟨v, hv, hne⟩
    | _ => rfl

theorem exists_map_object (l : List Value) (h : ∀ v ∈ l, ∃ m, v = Value.object m) :
    ∃ objs1 : List Obj, l = objs1.map (fun ob => Value.object ob.m) := by
  induction l with
  | nil => exact ⟨[], rfl⟩
  | cons i rest ih =>
    obtain ⟨m, hm⟩ := h i (by simp)
    obtain ⟨objs1, ho⟩ := ih (fun v hv => h v (by simp [hv]))
    exact ⟨⟨m⟩ :: objs1, by simp [hm, ho]⟩

/-- C8: when the value under `name` is a list, `SliceOfObjectWithName` returns
no error exactly when every item of the list is an object, and the result
then wraps the items one by one in their order, so that it is as long as the
list; the empty list gives the empty result and no error, and a list with an
item that is not an object gives the cast error on a list item. -/
theorem SliceOfObjectWithName_of_list (o : Obj) (name : String) (l : List Value)
    (hl : mapIndex o.m name = some (.list l)) :
    ((∃ objs, o.SliceOfObjectWithName name = .ret objs none) ↔
      ∀ v ∈ l, ∃ m, v = Value.object m) ∧
    (∀ objs, o.SliceOfObjectWithName name = .ret objs none →
      objs.length = l.length ∧ l = objs.map (fun ob => Value.object ob.m)) ∧
    (l = [] → o.SliceOfObjectWithName name = .ret [] none) ∧
    ((∃ v ∈ l, ∀ m, v ≠ Value.object m) →
      o.SliceOfObjectWithName name = .ret [] (some .castListItemToMap)) := by
  have hok : ∀ objs1 : List Obj, l = objs1.map (fun ob => Value.object ob.m) →
      o.SliceOfObjectWithName name = .ret objs1 none := by
    intro objs1 h
    simp only [Obj.SliceOfObjectWithName, hl, h, sliceOfObject_range_map, List.nil_append]
  have herr : (∃ v ∈ l, ∀ m, v ≠ Value.object m) →
      o.SliceOfObjectWithName name = .ret [] (some .castListItemToMap) := by
    intro h
    simp only [Obj.SliceOfObjectWithName, hl, sliceOfObject_range_error l [] h]
  have hall : ∀ objs, o.SliceOfObjectWithName name = .ret objs none →
      l = objs.map (fun ob => Value.object ob.m) := by
    intro objs h
    by_cases hc : ∀ v ∈ l, ∃ m, v = Value.object m
    · obtain ⟨objs1, h1⟩ := exists_map_object l hc
      rw [hok objs1 h1] at h
      simp only [Outcome.ret.injEq, and_true] at h
      rw [← h]; exact h1
    · have hc1 : ∃ v ∈ l, ∀ m, v ≠ Value.object m := by
        by_contra hcon
        refine hc (fun v hv => ?_)
        by_contra hv1
        exact hcon ⟨v, hv, fun m hm => hv1 ⟨m, hm⟩⟩
      rw [herr hc1] at h
      simp at h
  refine ⟨⟨fun ⟨objs, h⟩ v hv => ?_, fun h => ?_⟩, fun objs h => ?_, fun h => ?_, herr⟩
  · rw [hall objs h] at hv
    obtain ⟨ob, -, rfl⟩ := List.mem_map.mp hv
    exact ⟨ob.m, rfl⟩
  · obtain ⟨objs1, h1⟩ := exists_map_object l h
    exact ⟨objs1, hok objs1 h1⟩
  · have := hall objs h
    exact ⟨by rw [this, List.length_map], this⟩
  · exact hok [] (by simp [h])

theorem SliceOfObjectWithName_of_list_witness :
    mapIndex [("xs", Value.list [.object [("a", .null)], .str "b"])] "xs"
      = some (.list [.object [("a", .null)], .str "b"]) ∧
    (Obj.mk [("xs", .list [.object [("a", .null)], .str "b"])]).SliceOfObjectWithName "xs"
      = .ret [] (some .castListItemToMap) :=
  ⟨rfl,
    (SliceOfObjectWithName_of_list ⟨[("xs", .list [.object [("a", .null)], .str "b"])]⟩ "xs"
      [.object [("a", .null)], .str "b"] rfl).2.2.2
      ⟨.str "b", by simp, fun m hm => Value.noConfusion hm⟩⟩

theorem sliceOfString_range_map (strs acc : List String) :
    sliceOfString.range (strs.map Value.str) acc = some (acc ++ strs) := by
  induction strs generalizing acc with
  | nil => simp [sliceOfString.range]
  | cons str rest ih => simp [sliceOfString.range, ih]

theorem sliceOfString_range_none (s : List Value) (acc : List String)
    (h : ∃ v ∈ s, ∀ str, v ≠ Value.str str) :
    sliceOfString.range s acc = none := by
  induction s generalizing acc with
  | nil => simp at h
  | cons i rest ih =>
    cases i with
    | str x =>
      simp only [sliceOfString.range]
      apply ih
      obtain ⟨v, hv, hne⟩ := h
      rcases List.mem_cons.mp hv with rfl | hv
      · exact absurd rfl (hne x)
      · exact ⟨v, hv, hne⟩
    | _ => rfl

/-- C9: `SliceOfStringWithName` returns the strings of the list under `name`
in their order when every item is a string; it returns the not-found error
when `name` is absent, the cast error on the value when the value is not a
list, and the cast error on an item when the list has an item that is not a
string; whenever it returns an error the returned slice is empty, and it
never panics. -/
theorem SliceOfStringWithName_spec (o : Obj) (name : String) :
    (mapIndex o.m name = none →
      o.SliceOfStringWithName name = .ret [] (some (.notFound name))) ∧
    (∀ v, mapIndex o.m name = some v → (∀ s, v ≠ Value.list s) →
      o.SliceOfStringWithName name = .ret [] (some (.castToSlice name))) ∧
    (∀ strs : List String, mapIndex o.m name = some (.list (strs.map Value.str)) →
      o.SliceOfStringWithName name = .ret strs none) ∧
    (∀ s, mapIndex o.m name = some (.list s) → (∃ v ∈ s, ∀ str, v ≠ Value.str str) →
      o.SliceOfStringWithName name = .ret [] (some (.castItemToString name))) ∧
    (∀ val e, o.SliceOfStringWithName name = .ret val (some e) → val = []) ∧
    ∀ f, o.SliceOfStringWithName name ≠ .panic f := by
  refine ⟨fun h => ?_, fun v h hv => ?_, fun strs h => ?_, fun s h hs => ?_,
    fun val e h => ?_, fun f h => ?_⟩
  · simp only [Obj.SliceOfStringWithName, h]
  · cases v with
    | list s => exact absurd rfl (hv s)
    | _ => simp only [Obj.SliceOfStringWithName, h]
  · simp only [Obj.SliceOfStringWithName, h, sliceOfString_range_map, List.nil_append]
  · simp only [Obj.SliceOfStringWithName, h, sliceOfString_range_none s [] hs]
  · unfold Obj.SliceOfStringWithName at h
    split at h
    · simp only [Outcome.ret.injEq] at h; exact h.1.symm
    · split at h
      · split at h
        · simp only [Outcome.ret.injEq] at h; exact h.1.symm
        · simp at h
      · simp only [Outcome.ret.injEq] at h; exact h.1.symm
  · unfold Obj.SliceOfStringWithName at h
    split at h
    · simp at h
    · split at h
      · split at h <;> simp at h
      · simp at h

theorem SliceOfStringWithName_spec_witness :
    mapIndex [("xs", Value.list [.str "a", .float ⟨1⟩, .str "b"])] "xs"
      = some (.list [.str "a", .float ⟨1⟩, .str "b"]) ∧
    (Obj.mk [("xs", .list [.str "a", .float ⟨1⟩, .str "b"])]).SliceOfStringWithName "xs"
      = .ret [] (some (.castItemToString "xs")) ∧
    (Obj.mk [("xs", .list [.str "a", .str "b"])]).SliceOfStringWithName "xs"
      = .ret ["a", "b"] none :=
  ⟨rfl,
    (SliceOfStringWithName_spec ⟨[("xs", .list [.str "a", .float ⟨1⟩, .str "b"])]⟩ "xs").2.2.2.1
      _ rfl ⟨.float ⟨1⟩, by simp, fun str hs => Value.noConfusion hs⟩,
    (SliceOfStringWithName_spec ⟨[("xs", .list [.str "a", .str "b"])]⟩ "xs").2.2.1
      ["a", "b"] rfl⟩

/-- C10: `ObjectWithName` returns the not-found error exactly when `name` is
absent, the cast error exactly when `name` is present with a value that is
not an object, both errors naming `name`, and otherwise it returns no error
and the object stored under `name`. -/
theorem ObjectWithName_spec (o : Obj) (name : String) :
    ((∃ val n1, o.ObjectWithName name = .ret val (some (.notFound n1))) ↔
      mapIndex o.m name = none) ∧
    ((∃ val n1, o.ObjectWithName name = .ret val (some (.castAsObject n1))) ↔
      ∃ v, mapIndex o.m name = some v ∧ ∀ m, v ≠ Value.object m) ∧
    (∀ m, o.ObjectWithName name = .ret (some ⟨m⟩) none ↔
      mapIndex o.m name = some (.object m)) ∧
    (mapIndex o.m name = none →
      o.ObjectWithName name = .ret none (some (.notFound name))) ∧
    (∀ v, mapIndex o.m name = some v → (∀ m, v ≠ Value.object m) →
      o.ObjectWithName name = .ret none (some (.castAsObject name))) := by
  unfold Obj.ObjectWithName
  cases h : mapIndex o.m name with
  | none => simp
  | some v =>
    cases v with
    | object m =>
      simp only [reduceCtorEq, Option.some.injEq, exists_eq_left', ne_eq, false_implies,
        implies_true, and_true, Outcome.ret.injEq, and_false, exists_false, false_iff,
        Value.object.injEq, Obj.mk.injEq, true_and, forall_const, iff_self, not_false_eq_true]
      refine ⟨fun hm => hm m rfl, fun v hv hne => absurd hv.symm (hne m)⟩
    | _ => simp

theorem ObjectWithName_spec_witness :
    mapIndex testDoc.m "zzz" = none ∧
    testDoc.ObjectWithName "zzz" = .ret none (some (.notFound "zzz")) ∧
    (Obj.mk [("n", .float ⟨7⟩)]).ObjectWithName "n" = .ret none (some (.castAsObject "n")) :=
  ⟨rfl, (ObjectWithName_spec testDoc "zzz").2.2.2.1 rfl,
    (ObjectWithName_spec ⟨[("n", .float ⟨7⟩)]⟩ "n").2.2.2.2 _ rfl
      (fun _ hm => Value.noConfusion hm)⟩

/-- C11: on the object that holds a number under `n`, `StringWithName("n")`
panics in the single-value type assertion instead of returning the cast
error; it returns the stored string for a string and the not-found error for
an absent key. -/
theorem StringWithName_panics_on_number :
    (Obj.mk [("n", .float ⟨42⟩), ("s", .str "x")]).StringWithName "n"
      = .panic (.interfaceConversion (.float ⟨42⟩)) ∧
    (Obj.mk [("n", .float ⟨42⟩), ("s", .str "x")]).StringWithName "s" = .ret "x" none ∧
    (Obj.mk [("n", .float ⟨42⟩), ("s", .str "x")]).StringWithName "t"
      = .ret "" (some (.notFound "t")) :=
  ⟨rfl, rfl, rfl⟩

/-- C12: `FloatWithName` returns the stored number as it is when the value
under `name` is a float64, the not-found error when `name` is absent, and the
cast error for every other value, a string among them. -/
theorem FloatWithName_spec (o : Obj) (name : String) :
    (∀ f, mapIndex o.m name = some (.float f) → o.FloatWithName name = .ret f none) ∧
    (mapIndex o.m name = none →
      o.FloatWithName name = .ret ⟨0⟩ (some (.notFound name))) ∧
    (∀ v, mapIndex o.m name = some v → (∀ f, v ≠ Value.float f) →
      o.FloatWithName name = .ret ⟨0⟩ (some (.castToFloat64 name))) ∧
    (∀ s, mapIndex o.m name = some (.str s) →
      o.FloatWithName name = .ret ⟨0⟩ (some (.castToFloat64 name))) := by
  refine ⟨fun f h => ?_, fun h => ?_, fun v h hv => ?_, fun s h => ?_⟩
  · simp only [Obj.FloatWithName, h]
  · simp only [Obj.FloatWithName, h]
  · cases v with
    | float f => exact absurd rfl (hv f)
    | _ => simp only [Obj.FloatWithName, h]
  · simp only [Obj.FloatWithName, h]

theorem FloatWithName_spec_witness :
    mapIndex [("n", Value.str "42"), ("f", .float ⟨7⟩)] "n" = some (.str "42") ∧
    (Obj.mk [("n", .str "42"), ("f", .float ⟨7⟩)]).FloatWithName "n"
      = .ret ⟨0⟩ (some (.castToFloat64 "n")) ∧
    (Obj.mk [("n", .str "42"), ("f", .float ⟨7⟩)]).FloatWithName "f" = .ret ⟨7⟩ none :=
  ⟨rfl,
    (FloatWithName_spec ⟨[("n", .str "42"), ("f", .float ⟨7⟩)]⟩ "n").2.2.2 "42" rfl,
    (FloatWithName_spec ⟨[("n", .str "42"), ("f", .float ⟨7⟩)]⟩ "f").1 ⟨7⟩ rfl⟩

theorem isJSON_of_mapIndex (m : List (String × Value)) (name : String) (v : Value)
    (hjson : Value.isJSONEntries m = true) (hv : mapIndex m name = some v) :
    v.isJSON = true := by
  unfold mapIndex at hv
  induction m with
  | nil => simp at hv
  | cons kv rest ih =>
    obtain ⟨k1, v1⟩ := kv
    simp only [Value.isJSONEntries, Bool.and_eq_true] at hjson
    by_cases h : name = k1
    · subst h
      simp only [List.lookup, beq_self_eq_true, Option.some.injEq] at hv
      rw [← hv]; exact hjson.1
    · have hb : (name == k1) = false := by simpa using h
      simp only [List.lookup, hb] at hv
      exact ih hjson.2 hv

/-- C15: on an object whose values are all of the JSON value model of the
decoder, `IntWithName` returns an error for every key, the not-found error
when the key is absent and the cast error when it is present, whatever the
stored number; on any object it returns a value and no error only when the
value under the key is a native integer. -/
theorem IntWithName_on_JSON (o : Obj) (name : String)
    (hjson : Value.isJSONEntries o.m = true) :
    (mapIndex o.m name = none → o.IntWithName name = .ret 0 (some (.notFound name))) ∧
    (∀ v, mapIndex o.m name = some v →
      o.IntWithName name = .ret 0 (some (.castToInt name))) ∧
    (∀ i, o.IntWithName name ≠ .ret i none) ∧
    ∀ (o1 : Obj) (i : Int),
      o1.IntWithName name = .ret i none ↔ mapIndex o1.m name = some (.int i) := by
  have hpresent : ∀ v, mapIndex o.m name = some v →
      o.IntWithName name = .ret 0 (some (.castToInt name)) := by
    intro v h
    have hv := isJSON_of_mapIndex o.m name v hjson h
    cases v with
    | int i => simp [Value.isJSON] at hv
    | _ => simp only [Obj.IntWithName, h]
  refine ⟨fun h => ?_, hpresent, fun i hi => ?_, fun o1 i => ?_⟩
  · simp only [Obj.IntWithName, h]
  · cases h : mapIndex o.m name with
    | none =>
      simp only [Obj.IntWithName, h] at hi
      simp at hi
    | some v =>
      rw [hpresent v h] at hi
      simp at hi
  · unfold Obj.IntWithName
    cases h : mapIndex o1.m name with
    | none => simp
    | some v => cases v <;> simp

theorem IntWithName_on_JSON_witness :
    Value.isJSONEntries [("n", .float ⟨3⟩), ("l", .list [.str "x", .null])] = true ∧
    (Obj.mk [("n", .float ⟨3⟩), ("l", .list [.str "x", .null])]).IntWithName "n"
      = .ret 0 (some (.castToInt "n")) ∧
    (Obj.mk [("n", .float ⟨3⟩), ("l", .list [.str "x", .null])]).IntWithName "z"
      = .ret 0 (some (.notFound "z")) :=
  ⟨rfl,
    (IntWithName_on_JSON ⟨[("n", .float ⟨3⟩), ("l", .list [.str "x", .null])]⟩ "n" rfl).2.1
      _ rfl,
    (IntWithName_on_JSON ⟨[("n", .float ⟨3⟩), ("l", .list [.str "x", .null])]⟩ "z" rfl).1 rfl⟩

theorem exists_map_str (l : List Value) (h : ∀ v ∈ l, ∃ str, v = Value.str str) :
    ∃ strs : List String, l = strs.map Value.str := by
  induction l with
  | nil => exact ⟨[], rfl⟩
  | cons i rest ih =>
    obtain ⟨str, hstr⟩ := h i (by simp)
    obtain ⟨strs, hs⟩ := ih (fun v hv => h v (by simp [hv]))
    exact ⟨str :: strs, by simp [hstr, hs]⟩

/-- What the single-segment call `SliceOfObjectWithPath(name)` returns. -/
theorem SliceOfObjectWithPath_single (n : Nat) (o : Obj) (name : String) :
    o.SliceOfObjectWithPath (n + 1) [name] =
      some (match mapIndex o.m name with
        | none => .ret [] (some (.findInterfaceWithPath [name]))
        | some (.list l) =>
          match sliceOfObject.range l [] with
          | .error err => .ret [] (some err)
          | .ok objs => .ret objs none
        | some _ => .ret [] (some (.castPathToList [name]))) := by
  rw [Obj.SliceOfObjectWithPath, getInterfaceWithPath_single]
  cases h : mapIndex o.m name with
  | none => rfl
  | some v =>
    cases v with
    | list l => cases hr : sliceOfObject.range l [] <;> simp [hr]
    | _ => rfl

/-- What the single-segment call `SliceOfStringWithPath(name)` returns. -/
theorem SliceOfStringWithPath_single (n : Nat) (o : Obj) (name : String) :
    o.SliceOfStringWithPath (n + 1) [name] =
      some (match mapIndex o.m name with
        | none => .ret [] (some (.findInterfaceWithPath [name]))
        | some (.list s) =>
          match sliceOfString.range s [] with
          | none => .ret [] (some (.castPathItemToString [name]))
          | some strs => .ret strs none
        | some _ => .ret [] (some (.castPathToSlice [name]))) := by
  rw [Obj.SliceOfStringWithPath, getInterfaceWithPath_single]
  cases h : mapIndex o.m name with
  | none => rfl
  | some v =>
    cases v with
    | list l => cases hr : sliceOfString.range l [] <;> simp [hr]
    | _ => rfl

/-- The inputs on which the pair of slice-of-object lookups returns no error,
and what both members return on the others. -/
theorem sliceOfObject_pair (fuel : Nat) (o : Obj) (name : String) :
    (∀ objs : List Obj,
      mapIndex o.m name = some (.list (objs.map (fun ob => Value.object ob.m))) →
        o.SliceOfObjectWithPath (fuel + 1) [name] = some (.ret objs none) ∧
        o.SliceOfObjectWithName name = .ret objs none) ∧
    (∀ objs : List Obj,
      o.SliceOfObjectWithPath (fuel + 1) [name] = some (.ret objs none) ∨
        o.SliceOfObjectWithName name = .ret objs none →
      mapIndex o.m name = some (.list (objs.map (fun ob => Value.object ob.m)))) ∧
    (mapIndex o.m name = none →
      o.SliceOfObjectWithPath (fuel + 1) [name]
        = some (.ret [] (some (.findInterfaceWithPath [name]))) ∧
      o.SliceOfObjectWithName name = .ret [] (some (.notFound name))) ∧
    (∀ v, mapIndex o.m name = some v → (∀ l, v ≠ Value.list l) →
      o.SliceOfObjectWithPath (fuel + 1) [name]
        = some (.ret [] (some (.castPathToList [name]))) ∧
      o.SliceOfObjectWithName name = .ret [] (some (.castToList name))) ∧
    (∀ l, mapIndex o.m name = some (.list l) → (∃ v ∈ l, ∀ m, v ≠ Value.object m) →
      o.SliceOfObjectWithPath (fuel + 1) [name] = some (.ret [] (some .castListItemToMap)) ∧
      o.SliceOfObjectWithName name = .ret [] (some .castListItemToMap)) := by
  rw [SliceOfObjectWithPath_single]
  unfold Obj.SliceOfObjectWithName
  refine ⟨fun objs h => ?_, fun objs h => ?_, fun h => ?_, fun v h hv => ?_, fun l h hl => ?_⟩
  · simp only [h, sliceOfObject_range_map, List.nil_append, and_self]
  · cases hm : mapIndex o.m name with
    | none => simp [hm] at h
    | some v =>
      cases v with
      | list l =>
        by_cases hc : ∀ v ∈ l, ∃ m, v = Value.object m
        · obtain ⟨objs1, h1⟩ := exists_map_object l hc
          simp only [hm, h1, sliceOfObject_range_map, List.nil_append, Option.some.injEq,
            Outcome.ret.injEq, and_true, or_self] at h
          rw [h1, h]
        · have hc1 : ∃ v ∈ l, ∀ m, v ≠ Value.object m := by
            by_contra hcon
            refine hc (fun v hv => ?_)
            by_contra hv1
            exact hcon ⟨v, hv, fun m hm1 => hv1 ⟨m, hm1⟩⟩
          simp [hm, sliceOfObject_range_error l [] hc1] at h
      | _ => simp [hm] at h
  · simp only [h, and_self]
  · cases v with
    | list l => exact absurd rfl (hv l)
    | _ => simp only [h, and_self]
  · simp only [h, sliceOfObject_range_error l [] hl, and_self]

/-- The inputs on which the pair of slice-of-string lookups returns no error,
and what both members return on the others. -/
theorem sliceOfString_pair (fuel : Nat) (o : Obj) (name : String) :
    (∀ strs : List String, mapIndex o.m name = some (.list (strs.map Value.str)) →
        o.SliceOfStringWithPath (fuel + 1) [name] = some (.ret strs none) ∧
        o.SliceOfStringWithName name = .ret strs none) ∧
    (∀ strs : List String,
      o.SliceOfStringWithPath (fuel + 1) [name] = some (.ret strs none) ∨
        o.SliceOfStringWithName name = .ret strs none →
      mapIndex o.m name = some (.list (strs.map Value.str))) ∧
    (mapIndex o.m name = none →
      o.SliceOfStringWithPath (fuel + 1) [name]
        = some (.ret [] (some (.findInterfaceWithPath [name]))) ∧
      o.SliceOfStringWithName name = .ret [] (some (.notFound name))) ∧
    (∀ v, mapIndex o.m name = some v → (∀ l, v ≠ Value.list l) →
      o.SliceOfStringWithPath (fuel + 1) [name]
        = some (.ret [] (some (.castPathToSlice [name]))) ∧
      o.SliceOfStringWithName name = .ret [] (some (.castToSlice name))) ∧
    (∀ l, mapIndex o.m name = some (.list l) → (∃ v ∈ l, ∀ str, v ≠ Value.str str) →
      o.SliceOfStringWithPath (fuel + 1) [name]
        = some (.ret [] (some (.castPathItemToString [name]))) ∧
      o.SliceOfStringWithName name = .ret [] (some (.castItemToString name))) := by
  rw [SliceOfStringWithPath_single]
  unfold Obj.SliceOfStringWithName
  refine ⟨fun strs h => ?_, fun strs h => ?_, fun h => ?_, fun v h hv => ?_, fun l h hl => ?_⟩
  · simp only [h, sliceOfString_range_map, List.nil_append, and_self]
  · cases hm : mapIndex o.m name with
    | none => simp [hm] at h
    | some v =>
      cases v with
      | list l =>
        by_cases hc : ∀ v ∈ l, ∃ str, v = Value.str str
        · obtain ⟨strs1, h1⟩ := exists_map_str l hc
          simp only [hm, h1, sliceOfString_range_map, List.nil_append, Option.some.injEq,
            Outcome.ret.injEq, and_true, or_self] at h
          rw [h1, h]
        · have hc1 : ∃ v ∈ l, ∀ str, v ≠ Value.str str := by
            by_contra hcon
            refine hc (fun v hv => ?_)
            by_contra hv1
            exact hcon ⟨v, hv, fun str hs => hv1 ⟨str, hs⟩⟩
          simp [hm, sliceOfString_range_none l [] hc1] at h
      | _ => simp [hm] at h
  · simp only [h, and_self]
  · cases v with
    | list l => exact absurd rfl (hv l)
    | _ => simp only [h, and_self]
  · simp only [h, sliceOfString_range_none l [] hl, and_self]

/-- C16: the single-segment call `SliceOfObjectWithPath(name)` and
`SliceOfObjectWithName(name)` return no error on the same inputs, those where
the value under `name` is a list of objects, and then both return the
objects of the list in their order; both return an error and an empty slice
when `name` is absent, when the value is not a list, and when the list has an
item that is not an object.  The same holds for `SliceOfStringWithPath(name)`
and `SliceOfStringWithName(name)` with lists of strings. -/
theorem SliceWithPath_single_iff_WithName (fuel : Nat) (o : Obj) (name : String) :
    ((∀ objs : List Obj,
        mapIndex o.m name = some (.list (objs.map (fun ob => Value.object ob.m))) →
          o.SliceOfObjectWithPath (fuel + 1) [name] = some (.ret objs none) ∧
          o.SliceOfObjectWithName name = .ret objs none) ∧
      (∀ objs : List Obj,
        o.SliceOfObjectWithPath (fuel + 1) [name] = some (.ret objs none) ∨
          o.SliceOfObjectWithName name = .ret objs none →
        mapIndex o.m name = some (.list (objs.map (fun ob => Value.object ob.m)))) ∧
      (mapIndex o.m name = none →
        o.SliceOfObjectWithPath (fuel + 1) [name]
          = some (.ret [] (some (.findInterfaceWithPath [name]))) ∧
        o.SliceOfObjectWithName name = .ret [] (some (.notFound name))) ∧
      (∀ v, mapIndex o.m name = some v → (∀ l, v ≠ Value.list l) →
        o.SliceOfObjectWithPath (fuel + 1) [name]
          = some (.ret [] (some (.castPathToList [name]))) ∧
        o.SliceOfObjectWithName name = .ret [] (some (.castToList name))) ∧
      (∀ l, mapIndex o.m name = some (.list l) → (∃ v ∈ l, ∀ m, v ≠ Value.object m) →
        o.SliceOfObjectWithPath (fuel + 1) [name]
          = some (.ret [] (some .castListItemToMap)) ∧
        o.SliceOfObjectWithName name = .ret [] (some .castListItemToMap))) ∧
    ((∀ strs : List String, mapIndex o.m name = some (.list (strs.map Value.str)) →
          o.SliceOfStringWithPath (fuel + 1) [name] = some (.ret strs none) ∧
          o.SliceOfStringWithName name = .ret strs none) ∧
      (∀ strs : List String,
        o.SliceOfStringWithPath (fuel + 1) [name] = some (.ret strs none) ∨
          o.SliceOfStringWithName name = .ret strs none →
        mapIndex o.m name = some (.list (strs.map Value.str))) ∧
      (mapIndex o.m name = none →
        o.SliceOfStringWithPath (fuel + 1) [name]
          = some (.ret [] (some (.findInterfaceWithPath [name]))) ∧
        o.SliceOfStringWithName name = .ret [] (some (.notFound name))) ∧
      (∀ v, mapIndex o.m name = some v → (∀ l, v ≠ Value.list l) →
        o.SliceOfStringWithPath (fuel + 1) [name]
          = some (.ret [] (some (.castPathToSlice [name]))) ∧
        o.SliceOfStringWithName name = .ret [] (some (.castToSlice name))) ∧
      (∀ l, mapIndex o.m name = some (.list l) → (∃ v ∈ l, ∀ str, v ≠ Value.str str) →
        o.SliceOfStringWithPath (fuel + 1) [name]
          = some (.ret [] (some (.castPathItemToString [name]))) ∧
        o.SliceOfStringWithName name = .ret [] (some (.castItemToString name)))) ∧
    ((∃ objs, o.SliceOfObjectWithPath (fuel + 1) [name] = some (.ret objs none) ∧
        o.SliceOfObjectWithName name = .ret objs none) ∨
      ((∃ e, o.SliceOfObjectWithPath (fuel + 1) [name] = some (.ret [] (some e))) ∧
        ∃ e, o.SliceOfObjectWithName name = .ret [] (some e))) ∧
    ((∃ strs, o.SliceOfStringWithPath (fuel + 1) [name] = some (.ret strs none) ∧
        o.SliceOfStringWithName name = .ret strs none) ∨
      ((∃ e, o.SliceOfStringWithPath (fuel + 1) [name] = some (.ret [] (some e))) ∧
        ∃ e, o.SliceOfStringWithName name = .ret [] (some e))) := by
  refine ⟨sliceOfObject_pair fuel o name, sliceOfString_pair fuel o name, ?_⟩
  simp only [SliceOfObjectWithPath_single, SliceOfStringWithPath_single,
    Obj.SliceOfObjectWithName, Obj.SliceOfStringWithName]
  cases h : mapIndex o.m name with
  | none => exact ⟨Or.inr ⟨⟨_, rfl⟩, ⟨_, rfl⟩⟩, Or.inr ⟨⟨_, rfl⟩, ⟨_, rfl⟩⟩⟩
  | some v =>
    cases v with
    | list l =>
      refine ⟨?_, ?_⟩
      · cases hr : sliceOfObject.range l [] with
        | error err =>
          simp only [hr]
          exact Or.inr ⟨⟨_, rfl⟩, ⟨_, rfl⟩⟩
        | ok objs =>
          simp only [hr]
          exact Or.inl ⟨objs, rfl, rfl⟩
      · cases hr : sliceOfString.range l [] with
        | none =>
          simp only [hr]
          exact Or.inr ⟨⟨_, rfl⟩, ⟨_, rfl⟩⟩
        | some strs =>
          simp only [hr]
          exact Or.inl ⟨strs, rfl, rfl⟩
    | _ => exact ⟨Or.inr ⟨⟨_, rfl⟩, ⟨_, rfl⟩⟩, Or.inr ⟨⟨_, rfl⟩, ⟨_, rfl⟩⟩⟩

theorem SliceWithPath_single_iff_WithName_witness :
    mapIndex [("xs", Value.list [.object [("a", .null)], .str "b"]), ("n", .float ⟨1⟩)] "xs"
      = some (.list [.object [("a", .null)], .str "b"]) ∧
    ((Obj.mk [("xs", .list [.object [("a", .null)], .str "b"]),
        ("n", .float ⟨1⟩)]).SliceOfObjectWithPath 1 ["xs"]
        = some (.ret [] (some .castListItemToMap)) ∧
      (Obj.mk [("xs", .list [.object [("a", .null)], .str "b"]),
        ("n", .float ⟨1⟩)]).SliceOfObjectWithName "xs" = .ret [] (some .castListItemToMap)) ∧
    ((Obj.mk [("xs", .list [.object [("a", .null)], .str "b"]),
        ("n", .float ⟨1⟩)]).SliceOfStringWithPath 1 ["n"]
        = some (.ret [] (some (.castPathToSlice ["n"]))) ∧
      (Obj.mk [("xs", .list [.object [("a", .null)], .str "b"]),
        ("n", .float ⟨1⟩)]).SliceOfStringWithName "n" = .ret [] (some (.castToSlice "n"))) ∧
    ((Obj.mk [("ss", .list [.str "a", .str "b"])]).SliceOfStringWithPath 1 ["ss"]
        = some (.ret ["a", "b"] none) ∧
      (Obj.mk [("ss", .list [.str "a", .str "b"])]).SliceOfStringWithName "ss"
        = .ret ["a", "b"] none) ∧
    ((Obj.mk [("os", .list [.object [("a", .null)], .object []])]).SliceOfObjectWithPath 1 ["os"]
        = some (.ret [⟨[("a", .null)]⟩, ⟨[]⟩] none) ∧
      (Obj.mk [("os", .list [.object [("a", .null)], .object []])]).SliceOfObjectWithName "os"
        = .ret [⟨[("a", .null)]⟩, ⟨[]⟩] none) :=
  ⟨rfl,
    ⟨((SliceWithPath_single_iff_WithName 0
        ⟨[("xs", .list [.object [("a", .null)], .str "b"]), ("n", .float ⟨1⟩)]⟩
        "xs").1.2.2.2.2 _ rfl ⟨.str "b", by simp, fun _ hm => Value.noConfusion hm⟩).1,
      rfl⟩,
    (SliceWithPath_single_iff_WithName 0
      ⟨[("xs", .list [.object [("a", .null)], .str "b"]), ("n", .float ⟨1⟩)]⟩ "n").2.1.2.2.2.1
      _ rfl (fun _ hl => Value.noConfusion hl),
    ⟨((SliceWithPath_single_iff_WithName 0 ⟨[("ss", .list [.str "a", .str "b"])]⟩
        "ss").2.1.1 ["a", "b"] rfl).1,
      rfl⟩,
    ⟨((SliceWithPath_single_iff_WithName 0
        ⟨[("os", .list [.object [("a", .null)], .object []])]⟩ "os").1.1
        [⟨[("a", .null)]⟩, ⟨[]⟩] rfl).1,
      rfl⟩⟩

/-! ## Errors and faults of the path lookups -/

/-- The only errors of `GetObjectWithPath` are the one built from the whole
path and the cast error on the value found: none of them has a cause. -/
theorem GetObjectWithPath_error_form (fuel : Nat) (o : Obj) (args : List String)
    (val : Option Obj) (e : Err)
    (h : o.GetObjectWithPath fuel args = some (.ret val (some e))) :
    e = .findInterfaceWithPath args ∨ ∃ v, e = .castToMap v := by
  cases fuel with
  | zero => simp [Obj.GetObjectWithPath] at h
  | succ n =>
    rw [Obj.GetObjectWithPath] at h
    split at h
    · simp at h
    · simp at h
    · simp only [Option.some.injEq, Outcome.ret.injEq] at h
      exact Or.inl h.2.symm
    · split at h
      · simp at h
      · simp only [Option.some.injEq, Outcome.ret.injEq] at h
        exact Or.inr ⟨_, h.2.symm⟩

/-- C13: `GetObjectWithPath` answers a failure of `getInterfaceWithPath` with
the error built from the whole path alone.  On the document of the tests the
path `aaa`, `bbb`, `zzz` gives that error, while `getInterfaceWithPath`
returned the error that names `zzz`; an absent first segment `zzz` and a
first segment `n` that holds a number give errors of the same form, while
`getInterfaceWithPath` told them apart, and `StringWithPath` keeps the error
it received as the cause. -/
theorem GetObjectWithPath_drops_segment_error :
    testDoc.GetObjectWithPath 4 ["aaa", "bbb", "zzz"]
      = some (.ret none (some (.findInterfaceWithPath ["aaa", "bbb", "zzz"]))) ∧
    testDoc.getInterfaceWithPath 3 ["aaa", "bbb", "zzz"]
      = some (.ret .null (some (.getInterfaceWithName "zzz" none))) ∧
    testDoc.GetObjectWithPath 4 ["zzz", "bbb"]
      = some (.ret none (some (.findInterfaceWithPath ["zzz", "bbb"]))) ∧
    testDoc.getInterfaceWithPath 3 ["zzz", "bbb"]
      = some (.ret .null (some (.getInterfaceWithName "zzz"
          (some (.findInterfaceWithPath ["zzz"]))))) ∧
    (Obj.mk [("n", .float ⟨42⟩)]).GetObjectWithPath 4 ["n", "bbb"]
      = some (.ret none (some (.findInterfaceWithPath ["n", "bbb"]))) ∧
    (Obj.mk [("n", .float ⟨42⟩)]).getInterfaceWithPath 3 ["n", "bbb"]
      = some (.ret .null (some (.getInterfaceWithName "n"
          (some (.castToMap (.float ⟨42⟩)))))) ∧
    testDoc.StringWithPath 3 ["zzz", "bbb"]
      = some (.ret "" (some (.findStringWithPath ["zzz", "bbb"]
          (.getInterfaceWithName "zzz" (some (.findInterfaceWithPath ["zzz"])))))) :=
  ⟨rfl, rfl, rfl, rfl, rfl, rfl, rfl⟩

theorem getInterfaceWithPath_nil (n : Nat) (o : Obj) :
    o.getInterfaceWithPath (n + 1) [] = some (.panic .sliceBoundsOutOfRange) := by
  simp [Obj.getInterfaceWithPath]

theorem getInterfaceWithPath_returns (n : Nat) (o : Obj) (path : List String)
    (hpath : path ≠ []) :
    ∃ v e, o.getInterfaceWithPath (n + 3) path = some (.ret v e) := by
  rw [← List.dropLast_append_getLast hpath, getInterfaceWithPath_concat]
  obtain ⟨hs, hn⟩ := range_eq_chain o path.dropLast
  cases hc : objectChain o path.dropLast with
  | none =>
    obtain ⟨e, he⟩ := hn hc
    simp only [he]
    exact ⟨_, _, rfl⟩
  | some r =>
    simp only [hs r hc]
    cases mapIndex r.m (path.getLast hpath) with
    | none => exact ⟨_, _, rfl⟩
    | some v => exact ⟨_, _, rfl⟩

/-- Called with no segment, each path lookup panics on the slice expression. -/
theorem WithPath_panics_of_nil (fuel : Nat) (o : Obj) :
    o.GetObjectWithPath (fuel + 4) [] = some (.panic .sliceBoundsOutOfRange) ∧
    o.StringWithPath (fuel + 3) [] = some (.panic .sliceBoundsOutOfRange) ∧
    o.SliceOfObjectWithPath (fuel + 3) [] = some (.panic .sliceBoundsOutOfRange) ∧
    o.SliceOfStringWithPath (fuel + 3) [] = some (.panic .sliceBoundsOutOfRange) := by
  simp only [Obj.GetObjectWithPath, Obj.StringWithPath, Obj.SliceOfObjectWithPath,
    Obj.SliceOfStringWithPath, getInterfaceWithPath_nil, and_self]

/-- Called with at least one segment, each path lookup returns. -/
theorem WithPath_returns_of_ne_nil (fuel : Nat) (o : Obj) (args : List String)
    (h : args ≠ []) :
    (∃ v e, o.GetObjectWithPath (fuel + 4) args = some (.ret v e)) ∧
    (∃ v e, o.StringWithPath (fuel + 3) args = some (.ret v e)) ∧
    (∃ v e, o.SliceOfObjectWithPath (fuel + 3) args = some (.ret v e)) ∧
    ∃ v e, o.SliceOfStringWithPath (fuel + 3) args = some (.ret v e) := by
  obtain ⟨v, e, hv⟩ := getInterfaceWithPath_returns fuel o args h
  simp only [Obj.GetObjectWithPath, Obj.StringWithPath, Obj.SliceOfObjectWithPath,
    Obj.SliceOfStringWithPath, hv]
  cases e with
  | some err => exact ⟨⟨_, _, rfl⟩, ⟨_, _, rfl⟩, ⟨_, _, rfl⟩, ⟨_, _, rfl⟩⟩
  | none =>
    cases v with
    | list l =>
      refine ⟨⟨_, _, rfl⟩, ⟨_, _, rfl⟩, ?_, ?_⟩
      · cases hr : sliceOfObject.range l [] with
        | error err => simp only [hr]; exact ⟨_, _, rfl⟩
        | ok objs => simp only [hr]; exact ⟨_, _, rfl⟩
      · cases hr : sliceOfString.range l [] with
        | none => simp only [hr]; exact ⟨_, _, rfl⟩
        | some strs => simp only [hr]; exact ⟨_, _, rfl⟩
    | _ => exact ⟨⟨_, _, rfl⟩, ⟨_, _, rfl⟩, ⟨_, _, rfl⟩, ⟨_, _, rfl⟩⟩

/-- C17: called with no segment, each path lookup panics on the slice
expression `args[:len(args)-1]`; called with at least one segment, each of
them returns a value or an error and does not panic. -/
theorem WithPath_fault_iff_no_segment (fuel : Nat) (o : Obj) (args : List String) :
    (args = [] →
      o.GetObjectWithPath (fuel + 4) args = some (.panic .sliceBoundsOutOfRange) ∧
      o.StringWithPath (fuel + 3) args = some (.panic .sliceBoundsOutOfRange) ∧
      o.SliceOfObjectWithPath (fuel + 3) args = some (.panic .sliceBoundsOutOfRange) ∧
      o.SliceOfStringWithPath (fuel + 3) args = some (.panic .sliceBoundsOutOfRange)) ∧
    (args ≠ [] →
      (∃ v e, o.GetObjectWithPath (fuel + 4) args = some (.ret v e)) ∧
      (∃ v e, o.StringWithPath (fuel + 3) args = some (.ret v e)) ∧
      (∃ v e, o.SliceOfObjectWithPath (fuel + 3) args = some (.ret v e)) ∧
      ∃ v e, o.SliceOfStringWithPath (fuel + 3) args = some (.ret v e)) := by
  refine ⟨fun h => ?_, WithPath_returns_of_ne_nil fuel o args⟩
  subst h
  exact WithPath_panics_of_nil fuel o

theorem WithPath_fault_iff_no_segment_witness :
    (([] : List String) = [] ∧
      testDoc.GetObjectWithPath 4 [] = some (.panic .sliceBoundsOutOfRange)) ∧
    ((["aaa", "what"] : List String) ≠ [] ∧
      ∃ v e, testDoc.StringWithPath 3 ["aaa", "what"] = some (.ret v e)) :=
  ⟨⟨rfl, ((WithPath_fault_iff_no_segment 0 testDoc []).1 rfl).1⟩,
    ⟨by decide, ((WithPath_fault_iff_no_segment 0 testDoc ["aaa", "what"]).2 (by decide)).2.1⟩⟩

/-! ## Must forms -/

theorem ObjectWithName_ne_panic (o : Obj) (name : String) (f : Fault) :
    o.ObjectWithName name ≠ .panic f := by
  unfold Obj.ObjectWithName
  cases mapIndex o.m name with
  | none => simp
  | some v => cases v <;> simp

theorem singleKeyWithRegex_ne_panic (re : Regexp) (o : Obj) (pattern : String) (f : Fault) :
    o.singleKeyWithRegex re pattern ≠ .panic f := by
  unfold Obj.singleKeyWithRegex
  cases singleKeyWithRegex.range re pattern o.Keys [] with
  | error err => simp
  | ok m => rcases m with _ | ⟨a, _ | ⟨b, t⟩⟩ <;> simp

theorem ObjectWithRegex_ne_panic (re : Regexp) (o : Obj) (pattern : String) (f : Fault) :
    o.ObjectWithRegex re pattern ≠ .panic f := by
  unfold Obj.ObjectWithRegex
  have hs := singleKeyWithRegex_ne_panic re o pattern
  cases h : o.singleKeyWithRegex re pattern with
  | panic g => exact absurd h (hs g)
  | ret name e =>
    cases e with
    | some err => simp
    | none => exact ObjectWithName_ne_panic o name f

theorem FloatWithName_ne_panic (o : Obj) (name : String) (f : Fault) :
    o.FloatWithName name ≠ .panic f := by
  unfold Obj.FloatWithName
  cases mapIndex o.m name with
  | none => simp
  | some v => cases v <;> simp

theorem SliceOfObjectWithName_ne_panic (o : Obj) (name : String) (f : Fault) :
    o.SliceOfObjectWithName name ≠ .panic f := by
  unfold Obj.SliceOfObjectWithName
  cases mapIndex o.m name with
  | none => simp
  | some v =>
    cases v with
    | list l => cases hr : sliceOfObject.range l [] <;> simp [hr]
    | _ => simp

/-- C14, as the code has it: each Must form is the combinator `mustOf` on the
result of its counterpart, so it returns the value of a counterpart that
returns no error and panics with the error of a counterpart that returns
one; `ObjectWithName`, `ObjectWithRegex`, `FloatWithName`,
`SliceOfObjectWithName` and the path lookups on a path of at least one
segment never panic themselves; on a path of no segment the path lookups
panic on the slice expression and their Must forms let that fault through. -/
theorem Must_eq_mustOf (fuel : Nat) (re : Regexp) (o : Obj) (name pattern : String)
    (args : List String) :
    (o.MustObjectWithName name = mustOf (o.ObjectWithName name) ∧
      o.MustObjectWithRegex re pattern = mustOf (o.ObjectWithRegex re pattern) ∧
      o.MustStringWithName name = mustOf (o.StringWithName name) ∧
      o.MustFloatWithName name = mustOf (o.FloatWithName name) ∧
      o.MustSliceOfObjectWithName name = mustOf (o.SliceOfObjectWithName name) ∧
      o.MustObjectWithPath fuel args = (o.GetObjectWithPath fuel args).map mustOf ∧
      o.MustStringWithPath fuel args = (o.StringWithPath fuel args).map mustOf ∧
      o.MustSliceOfObjectWithPath fuel args
        = (o.SliceOfObjectWithPath fuel args).map mustOf ∧
      o.MustSliceOfStringWithPath fuel args
        = (o.SliceOfStringWithPath fuel args).map mustOf) ∧
    ((∀ f, o.ObjectWithName name ≠ .panic f) ∧
      (∀ f, o.ObjectWithRegex re pattern ≠ .panic f) ∧
      (∀ f, o.FloatWithName name ≠ .panic f) ∧
      ∀ f, o.SliceOfObjectWithName name ≠ .panic f) ∧
    (args ≠ [] →
      (∀ f, o.GetObjectWithPath (fuel + 4) args ≠ some (.panic f)) ∧
      (∀ f, o.StringWithPath (fuel + 3) args ≠ some (.panic f)) ∧
      (∀ f, o.SliceOfObjectWithPath (fuel + 3) args ≠ some (.panic f)) ∧
      ∀ f, o.SliceOfStringWithPath (fuel + 3) args ≠ some (.panic f)) ∧
    (args = [] →
      o.MustObjectWithPath (fuel + 4) args = some (.error .sliceBoundsOutOfRange) ∧
      o.MustStringWithPath (fuel + 3) args = some (.error .sliceBoundsOutOfRange) ∧
      o.MustSliceOfObjectWithPath (fuel + 3) args = some (.error .sliceBoundsOutOfRange) ∧
      o.MustSliceOfStringWithPath (fuel + 3) args
        = some (.error .sliceBoundsOutOfRange)) := by
  refine ⟨⟨?_, ?_, ?_, ?_, ?_, ?_, ?_, ?_, ?_⟩, ⟨ObjectWithName_ne_panic o name,
    ObjectWithRegex_ne_panic re o pattern, FloatWithName_ne_panic o name,
    SliceOfObjectWithName_ne_panic o name⟩, fun h => ?_, fun h => ?_⟩
  · unfold Obj.MustObjectWithName mustOf
    rcases o.ObjectWithName name with ⟨v, _ | e⟩ | f <;> rfl
  · unfold Obj.MustObjectWithRegex mustOf
    rcases o.ObjectWithRegex re pattern with ⟨v, _ | e⟩ | f <;> rfl
  · unfold Obj.MustStringWithName mustOf
    rcases o.StringWithName name with ⟨v, _ | e⟩ | f <;> rfl
  · unfold Obj.MustFloatWithName mustOf
    rcases o.FloatWithName name with ⟨v, _ | e⟩ | f <;> rfl
  · unfold Obj.MustSliceOfObjectWithName mustOf
    rcases o.SliceOfObjectWithName name with ⟨v, _ | e⟩ | f <;> rfl
  · unfold Obj.MustObjectWithPath mustOf
    rcases o.GetObjectWithPath fuel args with _ | ⟨v, _ | e⟩ | f <;> rfl
  · unfold Obj.MustStringWithPath mustOf
    rcases o.StringWithPath fuel args with _ | ⟨v, _ | e⟩ | f <;> rfl
  · unfold Obj.MustSliceOfObjectWithPath mustOf
    rcases o.SliceOfObjectWithPath fuel args with _ | ⟨v, _ | e⟩ | f <;> rfl
  · unfold Obj.MustSliceOfStringWithPath mustOf
    rcases o.SliceOfStringWithPath fuel args with _ | ⟨v, _ | e⟩ | f <;> rfl
  · obtain ⟨⟨v1, e1, h1⟩, ⟨v2, e2, h2⟩, ⟨v3, e3, h3⟩, v4, e4, h4⟩ :=
      WithPath_returns_of_ne_nil fuel o args h
    rw [h1, h2, h3, h4]
    simp
  · subst h
    obtain ⟨h1, h2, h3, h4⟩ := WithPath_panics_of_nil fuel o
    simp only [Obj.MustObjectWithPath, Obj.MustStringWithPath, Obj.MustSliceOfObjectWithPath,
      Obj.MustSliceOfStringWithPath, h1, h2, h3, h4, and_self]

theorem Must_eq_mustOf_witness :
    (["aaa", "bbb", "zzz"] : List String) ≠ [] ∧
    (∀ f, testDoc.GetObjectWithPath 4 ["aaa", "bbb", "zzz"] ≠ some (.panic f)) ∧
    testDoc.MustObjectWithPath 4 ["aaa", "bbb", "zzz"]
      = some (.error (.panicErr (.findInterfaceWithPath ["aaa", "bbb", "zzz"]))) ∧
    testDoc.MustObjectWithName "aaa"
      = .ok (some ⟨[("bbb", .object [("ccc", .object [("what", .str "42")])])]⟩) :=
  ⟨by decide,
    ((Must_eq_mustOf 0 literalRegexp testDoc "aaa" "a" ["aaa", "bbb", "zzz"]).2.2.1
      (by decide)).1,
    (Must_eq_mustOf 4 literalRegexp testDoc "aaa" "a" ["aaa", "bbb", "zzz"]).1.2.2.2.2.2.1,
    (Must_eq_mustOf 0 literalRegexp testDoc "aaa" "a" ["aaa", "bbb", "zzz"]).1.1⟩

/-- C14 fails on a path of no segment: `GetObjectWithPath` returns neither a
value nor an error there, it panics on the slice expression, and
`MustObjectWithPath` raises that fault. -/
theorem MustObjectWithPath_no_segment :
    testDoc.GetObjectWithPath 4 [] = some (.panic .sliceBoundsOutOfRange) ∧
    testDoc.MustObjectWithPath 4 [] = some (.error .sliceBoundsOutOfRange) ∧
    ¬ ∃ v e, testDoc.GetObjectWithPath 4 [] = some (.ret v (some e)) :=
  ⟨rfl, rfl, fun ⟨_, _, h⟩ => by
    have h1 : testDoc.GetObjectWithPath 4 [] = some (.panic .sliceBoundsOutOfRange) := rfl
    rw [h1] at h
    simp at h⟩

/-! ## Termination of the path lookups -/

theorem rangeCalls_le (o : Obj) (args : List String) :
    getInterfaceWithPath.rangeCalls (fun ob arg => some (singleSegment ob arg)) (some o) args
        ≤ args.length ∧
    ((objectChain o args).isSome →
      getInterfaceWithPath.rangeCalls (fun ob arg => some (singleSegment ob arg)) (some o) args
        = args.length) := by
  induction args generalizing o with
  | nil => simp [getInterfaceWithPath.rangeCalls]
  | cons a as ih =>
    simp only [getInterfaceWithPath.rangeCalls, objectChain, List.length_cons]
    rcases ObjectWithName_cases o a with ⟨m, -, h1, h2⟩ | ⟨⟨e1, h1⟩, e2, h2⟩
    · simp only [h1, h2]
      obtain ⟨hle, heq⟩ := ih ⟨m⟩
      exact ⟨by omega, fun h => by rw [heq h]; omega⟩
    · simp only [h1, h2]
      exact ⟨by omega, fun h => by simp at h⟩

/-- C18, as the code has it: on a non-empty path `getInterfaceWithPath` comes
back within three nested calls and `GetObjectWithPath` within four, each of
the two being entered at most twice in a nest; on a single segment
`getInterfaceWithPath` comes back without a further call; the loop calls
`GetObjectWithPath` at most once per segment before the last, and exactly
once per such segment when all of them resolve to objects. -/
theorem path_recursion_terminates (fuel : Nat) (o : Obj) (path : List String)
    (hpath : path ≠ []) :
    (∃ out, o.getInterfaceWithPath (fuel + 3) path = some out) ∧
    (∃ out, o.GetObjectWithPath (fuel + 4) path = some out) ∧
    (∀ name, ∃ out, o.getInterfaceWithPath 1 [name] = some out) ∧
    getInterfaceWithPath.rangeCalls (fun ob arg => Obj.GetObjectWithPath (fuel + 2) ob [arg])
        (some o) path.dropLast ≤ path.length - 1 ∧
    ((objectChain o path.dropLast).isSome →
      getInterfaceWithPath.rangeCalls (fun ob arg => Obj.GetObjectWithPath (fuel + 2) ob [arg])
        (some o) path.dropLast = path.length - 1) := by
  have hcall : (fun ob arg => Obj.GetObjectWithPath (fuel + 2) ob [arg]) =
      fun ob arg => some (singleSegment ob arg) := by
    funext ob arg
    exact GetObjectWithPath_single fuel ob arg
  obtain ⟨v, e, hv⟩ := getInterfaceWithPath_returns fuel o path hpath
  obtain ⟨⟨v1, e1, h1⟩, -⟩ := WithPath_returns_of_ne_nil fuel o path hpath
  refine ⟨⟨_, hv⟩, ⟨_, h1⟩, fun name => ⟨_, getInterfaceWithPath_single 0 o name⟩, ?_, ?_⟩
  · rw [hcall, ← List.length_dropLast]
    exact (rangeCalls_le o path.dropLast).1
  · rw [hcall, ← List.length_dropLast]
    exact (rangeCalls_le o path.dropLast).2

theorem path_recursion_terminates_witness :
    (["aaa", "bbb", "ccc"] : List String) ≠ [] ∧
    (∃ out, testDoc.GetObjectWithPath 4 ["aaa", "bbb", "ccc"] = some out) ∧
    getInterfaceWithPath.rangeCalls (fun ob arg => Obj.GetObjectWithPath 2 ob [arg])
        (some testDoc) (["aaa", "bbb", "ccc"] : List String).dropLast = 3 - 1 :=
  ⟨by decide,
    (path_recursion_terminates 0 testDoc ["aaa", "bbb", "ccc"] (by decide)).2.1,
    (path_recursion_terminates 0 testDoc ["aaa", "bbb", "ccc"] (by decide)).2.2.2.2 rfl⟩

/-- C18 fails on the object with no keys and the path `a`, `b`, `c`: the loop
returns at the first segment, after one call of `GetObjectWithPath`, and the
path has two segments before the last. -/
theorem rangeCalls_stops_at_first_failure :
    getInterfaceWithPath.rangeCalls (fun ob arg => Obj.GetObjectWithPath 2 ob [arg])
        (some ⟨[]⟩) (["a", "b", "c"] : List String).dropLast = 1 ∧
    (["a", "b", "c"] : List String).length - 1 = 2 ∧
    (Obj.mk []).getInterfaceWithPath 3 ["a", "b", "c"]
      = some (.ret .null (some (.getInterfaceWithName "a"
          (some (.findInterfaceWithPath ["a"]))))) :=
  ⟨rfl, rfl, rfl⟩

end Jparse
